import Mathlib

/-!
# Verification of the UUSID generator (`src/index.js`)

Shallow embedding of the identifier toolkit: the timestamp sequencer
(`getTimestamp`), the canonical encoder (`generate`), the validator
(`validate`), the timestamp decoder (`extractTimestamp`), the hierarchical
builder/parser, the content-addressed deriver (`fromContent` over SHA-256),
the encryption wrapper envelope, and the prefixed-generator construction.

JavaScript numbers are modelled as exact integers (`Nat`/`Int`, with explicit
`% 2^w` where the source applies 32-bit coercions); all clock values the
library manipulates are integral millisecond counts.  Strings are modelled as
`List Char`.
-/

namespace UUSID

/-- One lowercase hex digit, as produced by JavaScript `Number.toString(16)`. -/
def hexDigit (n : Nat) : Char :=
  if n < 10 then Char.ofNat (48 + n) else Char.ofNat (87 + n)

/-- Hex rendering worker: `toHexAux f n` renders `n` in base 16 (no leading
zeros), with fuel `f ≥ n` guaranteeing termination. -/
def toHexAux : Nat → Nat → List Char
  | 0, _ => []
  | _ + 1, 0 => []
  | f + 1, n => toHexAux f (n / 16) ++ [hexDigit (n % 16)]

/-- JavaScript `n.toString(16)` for a nonnegative integral `n`. -/
def toHexRaw (n : Nat) : List Char :=
  if n = 0 then ['0'] else toHexAux n n

/-- JavaScript `String.prototype.padStart(w, c)`. -/
def padStart (w : Nat) (c : Char) (s : List Char) : List Char :=
  List.replicate (w - s.length) c ++ s

/-- `n.toString(16).padStart(w, '0')` — the fixed-width group renderer used
for every field of the canonical text. -/
def toHexPad (w n : Nat) : List Char :=
  padStart w '0' (toHexRaw n)

/-- Numeric value of one hex digit, case-insensitive as in `parseInt(_, 16)`. -/
def fromHexDigit (c : Char) : Nat :=
  if '0' ≤ c ∧ c ≤ '9' then c.toNat - 48
  else if 'a' ≤ c ∧ c ≤ 'f' then c.toNat - 87
  else if 'A' ≤ c ∧ c ≤ 'F' then c.toNat - 55
  else 0

/-- `parseInt(s, 16)` on an all-hex-digit string. -/
def fromHex (l : List Char) : Nat :=
  l.foldl (fun acc c => 16 * acc + fromHexDigit c) 0

/-- Lowercase hex digit test (the alphabet `generate` emits). -/
def isLowerHex (c : Char) : Bool :=
  ('0' ≤ c && c ≤ '9') || ('a' ≤ c && c ≤ 'f')

/-- Case-insensitive hex digit test (the validator's `[0-9a-f]` with flag `i`). -/
def isHexDigitCI (c : Char) : Bool :=
  ('0' ≤ c && c ≤ '9') || ('a' ≤ c && c ≤ 'f') || ('A' ≤ c && c ≤ 'F')

theorem fromHexDigit_hexDigit {m : Nat} (h : m < 16) :
    fromHexDigit (hexDigit m) = m := by
  interval_cases m <;> decide

theorem isLowerHex_hexDigit {m : Nat} (h : m < 16) :
    isLowerHex (hexDigit m) = true := by
  interval_cases m <;> decide

theorem fromHex_append (a b : List Char) :
    fromHex (a ++ b) = b.foldl (fun acc c => 16 * acc + fromHexDigit c) (fromHex a) := by
  simp [fromHex, List.foldl_append]

theorem fromHex_append_digit (a : List Char) (c : Char) :
    fromHex (a ++ [c]) = 16 * fromHex a + fromHexDigit c := by
  simp [fromHex_append, List.foldl]

theorem fromHex_toHexAux : ∀ (f n : Nat), n ≤ f → fromHex (toHexAux f n) = n := by
  intro f
  induction f with
  | zero => intro n hn; interval_cases n; rfl
  | succ f ih =>
    intro n hn
    match n with
    | 0 => rfl
    | m + 1 =>
      show fromHex (toHexAux f ((m + 1) / 16) ++ [hexDigit ((m + 1) % 16)]) = m + 1
      rw [fromHex_append_digit, ih ((m + 1) / 16) (by omega),
        fromHexDigit_hexDigit (Nat.mod_lt _ (by omega))]
      omega

theorem fromHex_toHexRaw (n : Nat) : fromHex (toHexRaw n) = n := by
  unfold toHexRaw
  split
  · simp_all; rfl
  · exact fromHex_toHexAux n n le_rfl

theorem fromHex_replicate_zero (k : Nat) (l : List Char) :
    fromHex (List.replicate k '0' ++ l) = fromHex l := by
  induction k with
  | zero => simp
  | succ k ih =>
    have h0 : 16 * 0 + fromHexDigit '0' = 0 := by decide
    rw [List.replicate_succ, List.cons_append]
    show List.foldl _ (16 * 0 + fromHexDigit '0') _ = fromHex l
    rw [h0]
    exact ih

theorem fromHex_toHexPad (w n : Nat) : fromHex (toHexPad w n) = n := by
  unfold toHexPad padStart
  rw [fromHex_replicate_zero, fromHex_toHexRaw]

theorem toHexAux_length : ∀ (f n w : Nat), n ≤ f → n < 16 ^ w →
    (toHexAux f n).length ≤ w := by
  intro f
  induction f with
  | zero => intro n w _ _; interval_cases n; simp [toHexAux]
  | succ f ih =>
    intro n w hn hw
    match n with
    | 0 => simp [toHexAux]
    | m + 1 =>
      match w with
      | 0 => omega
      | w + 1 =>
        show (toHexAux f ((m + 1) / 16) ++ [hexDigit ((m + 1) % 16)]).length ≤ w + 1
        have h1 : (m + 1) / 16 < 16 ^ w := by
          rw [Nat.div_lt_iff_lt_mul (by norm_num)]
          calc m + 1 < 16 ^ (w + 1) := hw
            _ = 16 ^ w * 16 := by ring
        have h2 : (m + 1) / 16 ≤ f := by
          have := Nat.div_le_self (m + 1) 16
          omega
        have := ih ((m + 1) / 16) w h2 h1
        simp only [List.length_append, List.length_singleton]
        omega

theorem toHexRaw_length {w n : Nat} (hw : 1 ≤ w) (hn : n < 16 ^ w) :
    (toHexRaw n).length ≤ w := by
  unfold toHexRaw
  split
  · simpa using hw
  · exact toHexAux_length n n w le_rfl hn

theorem toHexPad_length {w n : Nat} (hw : 1 ≤ w) (hn : n < 16 ^ w) :
    (toHexPad w n).length = w := by
  unfold toHexPad padStart
  have := toHexRaw_length hw hn
  simp only [List.length_append, List.length_replicate]
  omega

theorem toHexPad_inj {w a b : Nat}
    (h : toHexPad w a = toHexPad w b) : a = b := by
  have := fromHex_toHexPad w a
  have := fromHex_toHexPad w b
  rw [h] at *
  omega

theorem toHexAux_mem_hex : ∀ (f n : Nat), n ≤ f → ∀ c ∈ toHexAux f n,
    isLowerHex c = true := by
  intro f
  induction f with
  | zero => intro n hn c hc; interval_cases n; simp [toHexAux] at hc
  | succ f ih =>
    intro n hn c hc
    match n with
    | 0 => simp [toHexAux] at hc
    | m + 1 =>
      simp only [toHexAux, List.mem_append, List.mem_singleton] at hc
      rcases hc with hc | hc
      · exact ih ((m + 1) / 16) (by have := Nat.div_le_self (m + 1) 16; omega) c hc
      · subst hc; exact isLowerHex_hexDigit (Nat.mod_lt _ (by omega))

theorem toHexPad_mem_hex {w n : Nat} : ∀ c ∈ toHexPad w n, isLowerHex c = true := by
  intro c hc
  unfold toHexPad padStart toHexRaw at hc
  simp only [List.mem_append, List.mem_replicate] at hc
  rcases hc with hc | hc
  · rw [hc.2]; decide
  · split at hc
    · simp only [List.mem_singleton] at hc; rw [hc]; decide
    · exact toHexAux_mem_hex n n le_rfl c hc

/-! ## Data model: generator identity, sequencer state, metrics -/

/-- `new Date('1582-10-15').getTime()` — the UUID epoch in ms, negative
because it precedes the Unix epoch. -/
def uuidEpochMs : Int := -12219292800000

/-- `-uuidEpochMs`: the offset added to a millisecond clock reading when
converting to ticks since the UUID epoch. -/
def epochOffset : Nat := 12219292800000

/-- `(this.lastTimestamp - uuidEpoch) * 10000` (src/index.js line 70); the
value is nonnegative for every nonnegative clock reading, so the later
`Math.abs` is the identity on it. -/
def tsTicks (lastTimestamp : Nat) : Nat := (lastTimestamp + epochOffset) * 10000

/-- `(absTimestamp & 0xffffffff) >>> 0` — the JS 32-bit coercion pair keeps
the low 32 bits. -/
def timeLowVal (ts : Nat) : Nat := ts % 2 ^ 32

/-- `Math.floor(absTimestamp / 0x100000000) & 0xffff` — low 16 bits of the
quotient. -/
def timeMidVal (ts : Nat) : Nat := (ts / 2 ^ 32) % 2 ^ 16

/-- `(Math.floor(absTimestamp / 0x1000000000000) & 0x0fff) | 0x1000`. -/
def timeHighVal (ts : Nat) : Nat := ((ts / 2 ^ 48) % 2 ^ 12) ||| 0x1000

/-- `(this.clockSeq + sequence) & 0xffff` (src/index.js line 95). -/
def clockSeqWithSeq (clockSeq seq : Nat) : Nat := (clockSeq + seq) % 2 ^ 16

/-- `(clockSeqWithSeq >> 8) | 0x80` (src/index.js line 96). -/
def clockSeqHighVal (x : Nat) : Nat := (x / 2 ^ 8) ||| 0x80

/-- `clockSeqWithSeq & 0xff` (src/index.js line 97). -/
def clockSeqLowVal (x : Nat) : Nat := x % 2 ^ 8

def timeLowStr (ts : Nat) : List Char := toHexPad 8 (timeLowVal ts)

def timeMidStr (ts : Nat) : List Char := toHexPad 4 (timeMidVal ts)

def timeHighStr (ts : Nat) : List Char := toHexPad 4 (timeHighVal ts)

/-- The `clockSeqAndVariant` group: high byte then low byte, each two hex
chars (src/index.js lines 96-97, 100). -/
def clockSeqStr (x : Nat) : List Char :=
  toHexPad 2 (clockSeqHighVal x) ++ toHexPad 2 (clockSeqLowVal x)

/-- `this.nodeId.padStart(12, '0')` (src/index.js line 98). -/
def nodeStr (nodeId : List Char) : List Char := padStart 12 '0' nodeId

/-- The five-group canonical text built by `generate` (src/index.js line 100),
before the optional prefix. -/
def renderCore (sep : Char) (nodeId : List Char)
    (lastTimestamp clockSeq seq : Nat) : List Char :=
  timeLowStr (tsTicks lastTimestamp) ++ sep ::
    (timeMidStr (tsTicks lastTimestamp) ++ sep ::
      (timeHighStr (tsTicks lastTimestamp) ++ sep ::
        (clockSeqStr (clockSeqWithSeq clockSeq seq) ++ sep :: nodeStr nodeId)))

/-- Generator configuration fixed at construction (src/index.js lines 8-27).
`idPrefix` embeds `this.prefix` (`prefix` is not usable as a Lean name); the
constructor maps a falsy option to `null`, modelled as `none`. -/
structure Config where
  nodeId : List Char
  idPrefix : Option (List Char)
  separator : Char
  validAfter : Option Int
  validBefore : Option Int
  secretKey : Option (List Char)
deriving DecidableEq

/-- JS truthiness of a stored number-or-null: `null` and `0` are falsy. -/
def numTruthy : Option Int → Bool
  | none => false
  | some v => v != 0

/-- `this.prefix ? prefix + separator + uuid : uuid` (src/index.js line 102). -/
def renderFull (cfg : Config) (lastTimestamp clockSeq seq : Nat) : List Char :=
  let uuid := renderCore cfg.separator cfg.nodeId lastTimestamp clockSeq seq
  match cfg.idPrefix with
  | some p => if p.isEmpty then uuid else p ++ cfg.separator :: uuid
  | none => uuid

/-- `this.clockSeq = crypto.randomBytes(2).readUInt16BE(0) & 0x3fff`
(src/index.js line 47), over the random 16-bit word. -/
def generateClockSeq (randomWord : Nat) : Nat := randomWord &&& 0x3fff

theorem generateClockSeq_lt (randomWord : Nat) :
    generateClockSeq randomWord < 2 ^ 14 := by
  have h := Nat.and_le_right (n := randomWord) (m := 0x3fff)
  simpa [generateClockSeq] using Nat.lt_of_le_of_lt h (by norm_num)

/-- The sequencer's mutable fields (src/index.js lines 10-12). -/
structure SeqState where
  lastTimestamp : Nat
  sequenceCounter : Nat
  clockSeq : Nat
deriving DecidableEq

/-- One call of `getTimestamp` (src/index.js lines 51-72), returning the
mutated state; the emitted pair is `(tsTicks lastTimestamp, sequenceCounter)`
of the result.  `now` is the `Date.now()` reading at entry; `nowAfterWait` is
the reading observed when the sequence-overflow busy-wait exits, and is
consulted only on that path. -/
def getTimestamp (now nowAfterWait : Nat) (s : SeqState) : SeqState :=
  if now = s.lastTimestamp then
    if s.sequenceCounter + 1 > 0xffff then
      { s with sequenceCounter := 0, lastTimestamp := nowAfterWait }
    else
      { s with sequenceCounter := s.sequenceCounter + 1 }
  else
    { s with sequenceCounter := 0, lastTimestamp := now }

/-- The metrics record (src/index.js lines 19-26).  Sample times and rates
are JS numbers compared against `now - 10000`, kept as `Int`. -/
structure Metrics where
  totalGenerated : Nat
  startTime : Nat
  collisions : Nat
  peakRate : Int
  currentRate : Int
  rateSamples : List Int
deriving DecidableEq

/-- `Math.round` on a nonnegative-or-negative rational: round half up. -/
def jsRound (q : ℚ) : Int := Int.floor (q + 1 / 2)

/-- The sample list after the push of `now` and the 10-second prune
(src/index.js lines 420-424). -/
def prunedSamples (now : Nat) (samples : List Int) : List Int :=
  (samples ++ [(now : Int)]).filter (fun t => (now : Int) - 10000 < t)

/-- The `Math.round((samples.length - 1) / (timeSpan / 1000))` rate
(src/index.js line 429). -/
def sampleRate (samples : List Int) (timeSpan : Int) : Int :=
  jsRound ((((samples.length : Int) - 1 : Int) : ℚ) / ((timeSpan : ℚ) / 1000))

/-- `updateMetrics` (src/index.js lines 415-433). -/
def updateMetrics (now : Nat) (m : Metrics) : Metrics :=
  if 1 < (prunedSamples now m.rateSamples).length then
    if 0 < (now : Int) - (prunedSamples now m.rateSamples).headD 0 then
      { m with totalGenerated := m.totalGenerated + 1,
               rateSamples := prunedSamples now m.rateSamples,
               currentRate := sampleRate (prunedSamples now m.rateSamples)
                 ((now : Int) - (prunedSamples now m.rateSamples).headD 0),
               peakRate := max m.peakRate (sampleRate (prunedSamples now m.rateSamples)
                 ((now : Int) - (prunedSamples now m.rateSamples).headD 0)) }
    else
      { m with totalGenerated := m.totalGenerated + 1,
               rateSamples := prunedSamples now m.rateSamples }
  else
    { m with totalGenerated := m.totalGenerated + 1,
             rateSamples := prunedSamples now m.rateSamples }

/-- Full per-instance mutable state. -/
structure GenState where
  seq : SeqState
  metrics : Metrics
deriving DecidableEq

/-- One call of `generate` (src/index.js lines 75-103): mutate the sequencer,
update the metrics, then apply the time-window policy; on success render the
canonical text.  The mutated state is returned on both paths because a thrown
JS exception leaves `this` mutated. -/
def generate (cfg : Config) (now nowAfterWait : Nat) (s : GenState) :
    GenState × Except String (List Char) :=
  let seqS := getTimestamp now nowAfterWait s.seq
  let s' : GenState := ⟨seqS, updateMetrics now s.metrics⟩
  if numTruthy cfg.validAfter ∧ (now : Int) < cfg.validAfter.getD 0 then
    (s', .error "Generation not allowed: Current time is before valid-after time")
  else if numTruthy cfg.validBefore ∧ (now : Int) > cfg.validBefore.getD 0 then
    (s', .error "Generation not allowed: Current time is after valid-before time")
  else
    (s', .ok (renderFull cfg seqS.lastTimestamp seqS.clockSeq seqS.sequenceCounter))

/-- State after `n` successive `generate` calls on one instance; call `i`
reads `clock i` (and `wait i` if its overflow busy-wait runs). -/
def runState (cfg : Config) (clock wait : Nat → Nat) (s0 : GenState) : Nat → GenState
  | 0 => s0
  | n + 1 => (generate cfg (clock n) (wait n) (runState cfg clock wait s0 n)).1

/-- Result of call `n` (0-indexed) in the same run. -/
def output (cfg : Config) (clock wait : Nat → Nat) (s0 : GenState) (n : Nat) :
    Except String (List Char) :=
  (generate cfg (clock n) (wait n) (runState cfg clock wait s0 n)).2

/-- Constructor-fresh sequencer state: `lastTimestamp = 0`,
`sequenceCounter = 0` (src/index.js lines 11-12). -/
def freshSeqState (clockSeq : Nat) : SeqState := ⟨0, 0, clockSeq⟩

/-- Constructor-fresh metrics (src/index.js lines 19-26). -/
def freshMetrics (startTime : Nat) : Metrics := ⟨0, startTime, 0, 0, 0, []⟩

def freshState (clockSeq startTime : Nat) : GenState :=
  ⟨freshSeqState clockSeq, freshMetrics startTime⟩

/-! ## C1: clock-regression handling of `clockSeq` -/

theorem getTimestamp_clockSeq (now nowAfterWait : Nat) (s : SeqState) :
    (getTimestamp now nowAfterWait s).clockSeq = s.clockSeq := by
  unfold getTimestamp
  split
  · split <;> rfl
  · rfl

theorem updateMetrics_totalGenerated (now : Nat) (m : Metrics) :
    (updateMetrics now m).totalGenerated = m.totalGenerated + 1 := by
  unfold updateMetrics
  split
  · split <;> rfl
  · rfl

/-- A sequencer state with a stored timestamp ahead of the clock reading used
in the C1 counterexample. -/
def c1State : SeqState := ⟨1000, 0, 5⟩

/-- C1 counterexample: at clock reading 500 with `lastTimestamp = 1000`
(a regression), `getTimestamp` leaves `clockSeq` at 5 instead of
incrementing it to 6 — the clockSeq after the regression does not differ
from the one before it. -/
theorem c1_counterexample :
    500 < c1State.lastTimestamp ∧
    (getTimestamp 500 500 c1State).clockSeq = c1State.clockSeq ∧
    c1State.clockSeq ≠ (c1State.clockSeq + 1) % 2 ^ 14 := by
  decide

/-- C1 (amended): on a clock regression (`now < lastTimestamp`) the code
takes the generic reset path — it records the smaller timestamp and resets
the sequence counter — and `clockSeq` is mutated on no path of
`getTimestamp` at all. -/
theorem c1_regression_behavior (now nowAfterWait : Nat) (s : SeqState)
    (h : now < s.lastTimestamp) :
    getTimestamp now nowAfterWait s = ⟨now, 0, s.clockSeq⟩ ∧
    ∀ (n w : Nat) (t : SeqState), (getTimestamp n w t).clockSeq = t.clockSeq := by
  refine ⟨?_, fun n w t => getTimestamp_clockSeq n w t⟩
  unfold getTimestamp
  rw [if_neg (by omega)]

theorem c1_regression_behavior_witness :
    getTimestamp 500 500 c1State = ⟨500, 0, 5⟩ ∧
    ∀ (n w : Nat) (t : SeqState), (getTimestamp n w t).clockSeq = t.clockSeq :=
  c1_regression_behavior 500 500 c1State (by decide)

/-! ## C2: fixed version nibble and variant bits -/

theorem two_pow_lor_eq_add : ∀ (k a : Nat), a < 2 ^ k → 2 ^ k ||| a = 2 ^ k + a := by
  intro k
  induction k with
  | zero =>
    intro a ha
    interval_cases a
    decide
  | succ k ih =>
    intro a ha
    have hp : (2 : Nat) ^ (k + 1) = 2 ^ k * 2 := pow_succ 2 k
    have hlt : a / 2 < 2 ^ k := by omega
    have hmod := Nat.mod_two_of_bodd a
    calc 2 ^ (k + 1) ||| a
        = Nat.bit false (2 ^ k) ||| Nat.bit (Nat.bodd a) (a / 2) := by
          conv_lhs =>
            rw [show (2 : Nat) ^ (k + 1) = Nat.bit false (2 ^ k) by
                  simp [Nat.bit]; rw [pow_succ]; ring,
              show a = Nat.bit (Nat.bodd a) (a / 2) by
                  rw [← Nat.div2_val]; exact (Nat.bit_decomp a).symm]
      _ = Nat.bit (false || Nat.bodd a) (2 ^ k ||| a / 2) := Nat.lor_bit _ _ _ _
      _ = Nat.bit (Nat.bodd a) (2 ^ k + a / 2) := by rw [Bool.false_or, ih (a / 2) hlt]
      _ = 2 ^ (k + 1) + a := by
          cases hb : Nat.bodd a <;> rw [hb] at hmod <;> simp [Nat.bit] at hmod ⊢ <;> omega

theorem lor_two_pow_of_lt {a k : Nat} (h : a < 2 ^ k) : a ||| 2 ^ k = 2 ^ k + a := by
  rw [Nat.lor_comm]
  exact two_pow_lor_eq_add k a h

theorem or4096_eq {a : Nat} (h : a < 4096) : a ||| 4096 = 4096 + a := by
  have := lor_two_pow_of_lt (k := 12) (a := a) (by omega)
  simpa using this

theorem or4096_div {a : Nat} (h : a < 4096) : (a ||| 4096) / 4096 = 1 := by
  rw [or4096_eq h]
  omega

theorem or128_eq {a : Nat} (h : a < 256) : a ||| 128 = 128 + a % 128 := by
  rcases lt_or_ge a 128 with hl | hg
  · have h1 := lor_two_pow_of_lt (k := 7) (a := a) (by omega)
    simp only [show (2 : Nat) ^ 7 = 128 from rfl] at h1
    omega
  · obtain ⟨b, hb, rfl⟩ : ∃ b, b < 128 ∧ a = 128 + b := ⟨a - 128, by omega, by omega⟩
    have h1 := two_pow_lor_eq_add 7 b hb
    simp only [show (2 : Nat) ^ 7 = 128 from rfl] at h1
    calc (128 + b) ||| 128
        = (128 ||| b) ||| 128 := by rw [h1]
      _ = 128 ||| (b ||| 128) := Nat.lor_assoc _ _ _
      _ = 128 ||| (128 ||| b) := by rw [Nat.lor_comm b]
      _ = (128 ||| 128) ||| b := (Nat.lor_assoc _ _ _).symm
      _ = 128 ||| b := by rw [show (128 ||| 128 : Nat) = 128 by decide]
      _ = 128 + b := h1
      _ = 128 + (128 + b) % 128 := by omega

theorem or128_msb {a : Nat} (h : a < 256) : (a ||| 128) / 2 ^ 7 % 2 = 1 := by
  rw [or128_eq h]
  omega

theorem or128_variant_iff {a : Nat} (h : a < 256) :
    ((a ||| 128) / 2 ^ 6 = 2) ↔ (a / 2 ^ 6 % 2 = 0) := by
  rw [or128_eq h]
  constructor <;> intro hx <;> omega

/-- C2 counterexample: with the 14-bit `clockSeq = 0x3fff` and per-tick
sequence 1, `clockSeqWithSeq = 0x4000`, whose rendered high byte is `0xc0`:
its top two bits are `11`, not the variant constant `10`. -/
theorem c2_counterexample :
    0x3fff < 2 ^ 14 ∧
    clockSeqWithSeq 0x3fff 1 = 0x4000 ∧
    clockSeqHighVal (clockSeqWithSeq 0x3fff 1) = 0xc0 ∧
    clockSeqHighVal (clockSeqWithSeq 0x3fff 1) / 2 ^ 6 ≠ 2 ∧
    clockSeqStr (clockSeqWithSeq 0x3fff 1) = ['c', '0', '0', '0'] := by
  decide

/-- C2 (amended): the version nibble of `timeHighAndVersion` is always the
constant 1, and the most significant bit of the `clockSeqAndVariant` high
byte is always set; but the second variant bit equals bit 14 of
`(clockSeq + sequence) mod 2^16`, so the two-bit variant `10` holds exactly
when that bit is clear — in particular whenever `clockSeq + sequence <
0x4000` — and not universally. -/
theorem c2_version_and_msb (ts clockSeq seq : Nat) :
    timeHighVal ts / 2 ^ 12 = 1 ∧
    2 ^ 12 ≤ timeHighVal ts ∧ timeHighVal ts < 2 ^ 13 ∧
    clockSeqHighVal (clockSeqWithSeq clockSeq seq) / 2 ^ 7 % 2 = 1 ∧
    (clockSeqHighVal (clockSeqWithSeq clockSeq seq) / 2 ^ 6 = 2 ↔
      clockSeqWithSeq clockSeq seq / 2 ^ 14 % 2 = 0) ∧
    (clockSeq + seq < 0x4000 → clockSeqHighVal (clockSeqWithSeq clockSeq seq) / 2 ^ 6 = 2) := by
  have hm : ts / 2 ^ 48 % 2 ^ 12 < 4096 := Nat.mod_lt _ (by norm_num)
  have hx : clockSeqWithSeq clockSeq seq < 2 ^ 16 := Nat.mod_lt _ (by norm_num)
  have hd : clockSeqWithSeq clockSeq seq / 2 ^ 8 < 256 := by omega
  have hth : timeHighVal ts = 4096 + ts / 2 ^ 48 % 2 ^ 12 := or4096_eq hm
  refine ⟨or4096_div hm, by omega, by omega, or128_msb hd, ?_, ?_⟩
  · rw [show clockSeqHighVal (clockSeqWithSeq clockSeq seq) =
      clockSeqWithSeq clockSeq seq / 2 ^ 8 ||| 128 from rfl,
      or128_variant_iff hd]
    constructor <;> intro h <;> omega
  · intro hlt
    have he : clockSeqWithSeq clockSeq seq = clockSeq + seq := Nat.mod_eq_of_lt (by omega)
    rw [show clockSeqHighVal (clockSeqWithSeq clockSeq seq) =
      clockSeqWithSeq clockSeq seq / 2 ^ 8 ||| 128 from rfl,
      or128_variant_iff hd]
    omega

theorem c2_version_and_msb_witness :
    timeHighVal 0 / 2 ^ 12 = 1 ∧
    2 ^ 12 ≤ timeHighVal 0 ∧ timeHighVal 0 < 2 ^ 13 ∧
    clockSeqHighVal (clockSeqWithSeq 9 3) / 2 ^ 7 % 2 = 1 ∧
    (clockSeqHighVal (clockSeqWithSeq 9 3) / 2 ^ 6 = 2 ↔
      clockSeqWithSeq 9 3 / 2 ^ 14 % 2 = 0) ∧
    (9 + 3 < 0x4000 → clockSeqHighVal (clockSeqWithSeq 9 3) / 2 ^ 6 = 2) :=
  c2_version_and_msb 0 9 3

/-! ## C3: state mutation on a rejected (time-window) call -/

/-- Config with `validBefore = 100` in the past relative to the call below. -/
def c3Config : Config :=
  ⟨['a', 'a', 'b', 'b', 'c', 'c', 'd', 'd', 'e', 'e', 'f', 'f'],
    none, '-', none, some 100, none⟩

/-- C3 counterexample: a `generate` call at time 200 on a generator with
`validBefore = 100` throws, yet the failed call has already advanced
`lastTimestamp` from 0 to 200 and incremented `totalGenerated` from 0 to 1 —
the instance state is not left as it was. -/
theorem c3_counterexample :
    (generate c3Config 200 200 (freshState 7 0)).2 =
      .error "Generation not allowed: Current time is after valid-before time" ∧
    (freshState 7 0).metrics.totalGenerated = 0 ∧
    (generate c3Config 200 200 (freshState 7 0)).1.metrics.totalGenerated = 1 ∧
    (freshState 7 0).seq.lastTimestamp = 0 ∧
    (generate c3Config 200 200 (freshState 7 0)).1.seq.lastTimestamp = 200 ∧
    (generate c3Config 200 200 (freshState 7 0)).1.metrics.rateSamples = [(200 : Int)] := by
  exact ⟨rfl, rfl, rfl, rfl, rfl, rfl⟩

/-- C3 (amended): a `generate` call outside the valid-before window does
raise a hard per-call failure, but only after the sequencer state has been
advanced by `getTimestamp` and the metrics updated (`totalGenerated`
incremented, the sample pushed); only `clockSeq` is untouched. -/
theorem c3_reject_mutates_state (cfg : Config) (now nowAfterWait : Nat) (s : GenState)
    (hafter : ¬(numTruthy cfg.validAfter = true ∧ (now : Int) < cfg.validAfter.getD 0))
    (hb : numTruthy cfg.validBefore = true) (hviol : (now : Int) > cfg.validBefore.getD 0) :
    (generate cfg now nowAfterWait s).2 =
      .error "Generation not allowed: Current time is after valid-before time" ∧
    (generate cfg now nowAfterWait s).1.seq = getTimestamp now nowAfterWait s.seq ∧
    (generate cfg now nowAfterWait s).1.metrics.totalGenerated =
      s.metrics.totalGenerated + 1 ∧
    (generate cfg now nowAfterWait s).1.seq.clockSeq = s.seq.clockSeq := by
  unfold generate
  rw [if_neg hafter, if_pos ⟨hb, hviol⟩]
  exact ⟨rfl, rfl, updateMetrics_totalGenerated now s.metrics,
    getTimestamp_clockSeq now nowAfterWait s.seq⟩

theorem c3_reject_mutates_state_witness :
    (generate c3Config 300 300 (freshState 7 0)).2 =
      .error "Generation not allowed: Current time is after valid-before time" ∧
    (generate c3Config 300 300 (freshState 7 0)).1.seq =
      getTimestamp 300 300 (freshState 7 0).seq ∧
    (generate c3Config 300 300 (freshState 7 0)).1.metrics.totalGenerated =
      (freshState 7 0).metrics.totalGenerated + 1 ∧
    (generate c3Config 300 300 (freshState 7 0)).1.seq.clockSeq =
      (freshState 7 0).seq.clockSeq :=
  c3_reject_mutates_state c3Config 300 300 (freshState 7 0)
    (by decide) (by decide) (by decide)

/-! ## `extractTimestamp` and its inversion of `generate`'s rendering -/

/-- The stripping in `extractTimestamp` (src/index.js lines 301-302): remove
every occurrence of the configured separator and every dot. -/
def stripSepAndDots (sep : Char) (l : List Char) : List Char :=
  l.filter (fun c => !(c == sep || c == '.'))

/-- `extractTimestamp` (src/index.js lines 299-317).  The final division by
10000 is modelled as exact rational division. -/
def extractTimestamp (cfg : Config) (id : List Char) : Except String ℚ :=
  let cleanId := stripSepAndDots cfg.separator id
  if cleanId.length < 32 then
    .error "Invalid ID format for timestamp extraction"
  else
    let timeLow := fromHex (cleanId.take 8)
    let timeMid := fromHex ((cleanId.drop 8).take 4)
    let timeHigh := fromHex ((cleanId.drop 12).take 4) &&& 0x0fff
    .ok ((uuidEpochMs : ℚ) +
      ((timeHigh * 0x1000000000000 + timeMid * 0x100000000 + timeLow : Nat) : ℚ) / 10000)

theorem strip_of_all_hex {sep : Char} (hsep : isLowerHex sep = false) {l : List Char}
    (hl : ∀ c ∈ l, isLowerHex c = true) : stripSepAndDots sep l = l := by
  unfold stripSepAndDots
  rw [List.filter_eq_self]
  intro c hc
  have h1 := hl c hc
  by_cases h2 : c = sep
  · rw [h2] at h1; rw [h1] at hsep; cases hsep
  · by_cases h3 : c = '.'
    · subst h3; exact absurd h1 (by decide)
    · simp [h2, h3]

theorem stripSepAndDots_append (sep : Char) (a b : List Char) :
    stripSepAndDots sep (a ++ b) = stripSepAndDots sep a ++ stripSepAndDots sep b := by
  simp [stripSepAndDots]

theorem stripSepAndDots_cons_sep (sep : Char) (b : List Char) :
    stripSepAndDots sep (sep :: b) = stripSepAndDots sep b := by
  simp [stripSepAndDots]

theorem timeLowVal_lt (ts : Nat) : timeLowVal ts < 16 ^ 8 := by
  unfold timeLowVal
  have : ts % 2 ^ 32 < 2 ^ 32 := Nat.mod_lt _ (by norm_num)
  omega

theorem timeMidVal_lt (ts : Nat) : timeMidVal ts < 16 ^ 4 := by
  unfold timeMidVal
  have : ts / 2 ^ 32 % 2 ^ 16 < 2 ^ 16 := Nat.mod_lt _ (by norm_num)
  omega

theorem timeHighVal_eq (ts : Nat) :
    timeHighVal ts = 4096 + ts / 2 ^ 48 % 2 ^ 12 := by
  unfold timeHighVal
  exact or4096_eq (Nat.mod_lt _ (by norm_num))

theorem timeHighVal_lt (ts : Nat) : timeHighVal ts < 16 ^ 4 := by
  rw [timeHighVal_eq]
  have : ts / 2 ^ 48 % 2 ^ 12 < 2 ^ 12 := Nat.mod_lt _ (by norm_num)
  omega

theorem clockSeqHighVal_lt {x : Nat} (h : x < 2 ^ 16) : clockSeqHighVal x < 16 ^ 2 := by
  unfold clockSeqHighVal
  have hd : x / 2 ^ 8 < 256 := by omega
  rw [or128_eq hd]
  omega

theorem clockSeqLowVal_lt (x : Nat) : clockSeqLowVal x < 16 ^ 2 := by
  unfold clockSeqLowVal
  omega

theorem timeLowStr_length (ts : Nat) : (timeLowStr ts).length = 8 :=
  toHexPad_length (by norm_num) (timeLowVal_lt ts)

theorem timeMidStr_length (ts : Nat) : (timeMidStr ts).length = 4 :=
  toHexPad_length (by norm_num) (timeMidVal_lt ts)

theorem timeHighStr_length (ts : Nat) : (timeHighStr ts).length = 4 :=
  toHexPad_length (by norm_num) (timeHighVal_lt ts)

theorem clockSeqStr_length {x : Nat} (h : x < 2 ^ 16) : (clockSeqStr x).length = 4 := by
  unfold clockSeqStr
  rw [List.length_append, toHexPad_length (by norm_num) (clockSeqHighVal_lt h),
    toHexPad_length (by norm_num) (clockSeqLowVal_lt x)]

theorem nodeStr_eq {nodeId : List Char} (h : nodeId.length = 12) :
    nodeStr nodeId = nodeId := by
  unfold nodeStr padStart
  rw [h]
  simp

theorem clockSeqStr_mem_hex {x : Nat} : ∀ c ∈ clockSeqStr x, isLowerHex c = true := by
  intro c hc
  unfold clockSeqStr at hc
  rcases List.mem_append.mp hc with h | h
  · exact toHexPad_mem_hex c h
  · exact toHexPad_mem_hex c h

/-- Stripping the canonical text recovers the concatenated hex groups. -/
theorem strip_renderCore {sep : Char} (hsep : isLowerHex sep = false)
    {nodeId : List Char} (hlen : nodeId.length = 12)
    (hhex : ∀ c ∈ nodeId, isLowerHex c = true) (last clockSeq seq : Nat) :
    stripSepAndDots sep (renderCore sep nodeId last clockSeq seq) =
      timeLowStr (tsTicks last) ++
        (timeMidStr (tsTicks last) ++
          (timeHighStr (tsTicks last) ++
            (clockSeqStr (clockSeqWithSeq clockSeq seq) ++ nodeId))) := by
  unfold renderCore
  rw [nodeStr_eq hlen]
  rw [stripSepAndDots_append, stripSepAndDots_cons_sep,
    stripSepAndDots_append, stripSepAndDots_cons_sep,
    stripSepAndDots_append, stripSepAndDots_cons_sep,
    stripSepAndDots_append, stripSepAndDots_cons_sep]
  rw [strip_of_all_hex (l := timeLowStr (tsTicks last)) hsep
      (fun c hc => toHexPad_mem_hex c hc),
    strip_of_all_hex (l := timeMidStr (tsTicks last)) hsep
      (fun c hc => toHexPad_mem_hex c hc),
    strip_of_all_hex (l := timeHighStr (tsTicks last)) hsep
      (fun c hc => toHexPad_mem_hex c hc),
    strip_of_all_hex hsep clockSeqStr_mem_hex,
    strip_of_all_hex hsep hhex]

/-- `extractTimestamp` applied to a freshly rendered un-prefixed canonical
text recovers the millisecond clock value exactly, provided the tick count
fits the 60 timestamp bits. -/
theorem extractTimestamp_render (cfg : Config) (last clockSeq seq : Nat)
    (hsep : isLowerHex cfg.separator = false)
    (hlen : cfg.nodeId.length = 12)
    (hhex : ∀ c ∈ cfg.nodeId, isLowerHex c = true)
    (hpre : cfg.idPrefix = none)
    (hts : tsTicks last < 2 ^ 60) :
    extractTimestamp cfg (renderFull cfg last clockSeq seq) = .ok ((last : ℚ)) := by
  have hx : clockSeqWithSeq clockSeq seq < 2 ^ 16 := Nat.mod_lt _ (by norm_num)
  have hA := strip_renderCore hsep hlen hhex last clockSeq seq
  have hfull : renderFull cfg last clockSeq seq =
      renderCore cfg.separator cfg.nodeId last clockSeq seq := by
    unfold renderFull
    rw [hpre]
  have hlw := timeLowStr_length (tsTicks last)
  have hmw := timeMidStr_length (tsTicks last)
  have hhw := timeHighStr_length (tsTicks last)
  have hcw := clockSeqStr_length hx
  have hlength : (stripSepAndDots cfg.separator
      (renderCore cfg.separator cfg.nodeId last clockSeq seq)).length = 32 := by
    rw [hA]
    simp only [List.length_append]
    omega
  have htake8 : (stripSepAndDots cfg.separator
      (renderCore cfg.separator cfg.nodeId last clockSeq seq)).take 8 =
      timeLowStr (tsTicks last) := by
    rw [hA, ← hlw, List.take_left]
  have hdrop8 : (stripSepAndDots cfg.separator
      (renderCore cfg.separator cfg.nodeId last clockSeq seq)).drop 8 =
      timeMidStr (tsTicks last) ++
        (timeHighStr (tsTicks last) ++
          (clockSeqStr (clockSeqWithSeq clockSeq seq) ++ cfg.nodeId)) := by
    rw [hA, ← hlw, List.drop_left]
  have hstep : ((stripSepAndDots cfg.separator
      (renderCore cfg.separator cfg.nodeId last clockSeq seq)).drop 8).drop 4 =
      timeHighStr (tsTicks last) ++
        (clockSeqStr (clockSeqWithSeq clockSeq seq) ++ cfg.nodeId) := by
    rw [hdrop8, ← hmw, List.drop_left]
  have hdrop12 : (stripSepAndDots cfg.separator
      (renderCore cfg.separator cfg.nodeId last clockSeq seq)).drop 12 =
      timeHighStr (tsTicks last) ++
        (clockSeqStr (clockSeqWithSeq clockSeq seq) ++ cfg.nodeId) := by
    rw [← hstep, List.drop_drop]
  have htakeMid : ((stripSepAndDots cfg.separator
      (renderCore cfg.separator cfg.nodeId last clockSeq seq)).drop 8).take 4 =
      timeMidStr (tsTicks last) := by
    rw [hdrop8, ← hmw, List.take_left]
  have htakeHigh : ((stripSepAndDots cfg.separator
      (renderCore cfg.separator cfg.nodeId last clockSeq seq)).drop 12).take 4 =
      timeHighStr (tsTicks last) := by
    rw [hdrop12, ← hhw, List.take_left]
  unfold extractTimestamp
  rw [hfull]
  rw [if_neg (by rw [hlength]; omega)]
  rw [htake8, htakeMid, htakeHigh]
  unfold timeLowStr timeMidStr timeHighStr
  rw [fromHex_toHexPad, fromHex_toHexPad, fromHex_toHexPad]
  have hand : timeHighVal (tsTicks last) &&& 0x0fff = tsTicks last / 2 ^ 48 % 2 ^ 12 := by
    rw [timeHighVal_eq, show (0x0fff : Nat) = 2 ^ 12 - 1 from rfl,
      Nat.and_pow_two_sub_one_eq_mod]
    have : tsTicks last / 2 ^ 48 % 2 ^ 12 < 2 ^ 12 := Nat.mod_lt _ (by norm_num)
    omega
  rw [hand]
  have hrec : tsTicks last / 2 ^ 48 % 2 ^ 12 * 0x1000000000000 +
      timeMidVal (tsTicks last) * 0x100000000 + timeLowVal (tsTicks last) =
      tsTicks last := by
    unfold timeMidVal timeLowVal
    omega
  dsimp only
  rw [hrec]
  have hq : ((tsTicks last : Nat) : ℚ) = ((last : ℚ) + 12219292800000) * 10000 := by
    unfold tsTicks epochOffset
    push_cast
    ring
  rw [hq]
  have h10 : ((last : ℚ) + 12219292800000) * 10000 / 10000 =
      (last : ℚ) + 12219292800000 := by
    field_simp
  rw [h10]
  have : (uuidEpochMs : ℚ) = -12219292800000 := by norm_num [uuidEpochMs]
  rw [this]
  norm_num

/-! ## C6: monotone decoded timestamps under a forward-moving clock -/

/-- All `Date.now()` readings of a run occur in nondecreasing real-time
order: call `n`'s entry reading, then its (potential) busy-wait exit
reading, then call `n + 1`'s entry reading. -/
def Chronological (clock wait : Nat → Nat) : Prop :=
  ∀ n, clock n ≤ wait n ∧ wait n ≤ clock (n + 1)

theorem generate_seq (cfg : Config) (now nowAfterWait : Nat) (s : GenState) :
    (generate cfg now nowAfterWait s).1.seq = getTimestamp now nowAfterWait s.seq := by
  unfold generate
  split
  · rfl
  · split <;> rfl

theorem getTimestamp_last_bounds (now nowAfterWait : Nat) (s : SeqState)
    (h1 : s.lastTimestamp ≤ now) (h2 : now ≤ nowAfterWait) :
    s.lastTimestamp ≤ (getTimestamp now nowAfterWait s).lastTimestamp ∧
    (getTimestamp now nowAfterWait s).lastTimestamp ≤ nowAfterWait := by
  unfold getTimestamp
  split
  next heq =>
    split
    · dsimp only; omega
    · dsimp only; omega
  next hne => dsimp only; omega

theorem runState_last_le (cfg : Config) (clock wait : Nat → Nat) (s0 : GenState)
    (h0 : s0.seq.lastTimestamp = 0) (hc : Chronological clock wait) :
    ∀ n, (runState cfg clock wait s0 n).seq.lastTimestamp ≤ clock n := by
  intro n
  induction n with
  | zero => simp [runState, h0]
  | succ n ih =>
    have hcn := hc n
    show ((generate cfg (clock n) (wait n) (runState cfg clock wait s0 n)).1).seq.lastTimestamp ≤
      clock (n + 1)
    rw [generate_seq]
    have := (getTimestamp_last_bounds (clock n) (wait n)
      (runState cfg clock wait s0 n).seq ih hcn.1).2
    omega

theorem runState_last_mono (cfg : Config) (clock wait : Nat → Nat) (s0 : GenState)
    (h0 : s0.seq.lastTimestamp = 0) (hc : Chronological clock wait) (n : Nat) :
    (runState cfg clock wait s0 n).seq.lastTimestamp ≤
      (runState cfg clock wait s0 (n + 1)).seq.lastTimestamp := by
  have h1 := runState_last_le cfg clock wait s0 h0 hc n
  show _ ≤ ((generate cfg (clock n) (wait n) (runState cfg clock wait s0 n)).1).seq.lastTimestamp
  rw [generate_seq]
  exact (getTimestamp_last_bounds (clock n) (wait n)
    (runState cfg clock wait s0 n).seq h1 (hc n).1).1

/-- With no time-window configured, every call succeeds and renders the
post-call sequencer fields. -/
theorem output_ok (cfg : Config) (hA : cfg.validAfter = none) (hB : cfg.validBefore = none)
    (clock wait : Nat → Nat) (s0 : GenState) (n : Nat) :
    output cfg clock wait s0 n = .ok (renderFull cfg
      (runState cfg clock wait s0 (n + 1)).seq.lastTimestamp
      (runState cfg clock wait s0 (n + 1)).seq.clockSeq
      (runState cfg clock wait s0 (n + 1)).seq.sequenceCounter) := by
  have hr : runState cfg clock wait s0 (n + 1) =
      (generate cfg (clock n) (wait n) (runState cfg clock wait s0 n)).1 := rfl
  rw [hr]
  show (generate cfg (clock n) (wait n) (runState cfg clock wait s0 n)).2 = _
  unfold generate
  rw [hA, hB]
  simp [numTruthy]

theorem getTimestamp_lex (now nowAfterWait : Nat) (s : SeqState)
    (h1 : s.lastTimestamp ≤ now)
    (hov : now = s.lastTimestamp → 0xffff < s.sequenceCounter + 1 → now < nowAfterWait) :
    s.lastTimestamp < (getTimestamp now nowAfterWait s).lastTimestamp ∨
    ((getTimestamp now nowAfterWait s).lastTimestamp = s.lastTimestamp ∧
      (getTimestamp now nowAfterWait s).sequenceCounter = s.sequenceCounter + 1) := by
  unfold getTimestamp
  split
  next heq =>
    split
    next hof =>
      left
      have := hov heq hof
      dsimp only
      omega
    next hof => right; exact ⟨rfl, rfl⟩
  next hne =>
    left
    dsimp only
    omega

/-- C6: under a forward-moving (nondecreasing) clock whose readings keep the
tick count within the 60 timestamp bits, consecutive `generate` outputs
decode (via `extractTimestamp`) to nondecreasing timestamps, and the emitted
(timestamp, sequence) pair strictly increases lexicographically from one
call to the next.  The `hov` hypothesis states the busy-wait exit fact: the
overflow wait only returns once the clock has moved past the stored tick. -/
theorem c6_decode_monotone (cfg : Config) (clock wait : Nat → Nat) (cs st : Nat)
    (hsep : isLowerHex cfg.separator = false)
    (hlen : cfg.nodeId.length = 12)
    (hhex : ∀ c ∈ cfg.nodeId, isLowerHex c = true)
    (hpre : cfg.idPrefix = none)
    (hA : cfg.validAfter = none) (hB : cfg.validBefore = none)
    (hc : Chronological clock wait)
    (hov : ∀ m, clock m = (runState cfg clock wait (freshState cs st) m).seq.lastTimestamp →
      0xffff < (runState cfg clock wait (freshState cs st) m).seq.sequenceCounter + 1 →
      clock m < wait m)
    (n : Nat)
    (hb1 : tsTicks (clock (n + 1)) < 2 ^ 60)
    (hb2 : tsTicks (clock (n + 2)) < 2 ^ 60) :
    ∃ (a b : List Char) (qa qb : ℚ),
      output cfg clock wait (freshState cs st) n = .ok a ∧
      output cfg clock wait (freshState cs st) (n + 1) = .ok b ∧
      extractTimestamp cfg a = .ok qa ∧
      extractTimestamp cfg b = .ok qb ∧ qa ≤ qb ∧
      ((runState cfg clock wait (freshState cs st) (n + 1)).seq.lastTimestamp <
        (runState cfg clock wait (freshState cs st) (n + 2)).seq.lastTimestamp ∨
       ((runState cfg clock wait (freshState cs st) (n + 2)).seq.lastTimestamp =
          (runState cfg clock wait (freshState cs st) (n + 1)).seq.lastTimestamp ∧
        (runState cfg clock wait (freshState cs st) (n + 2)).seq.sequenceCounter =
          (runState cfg clock wait (freshState cs st) (n + 1)).seq.sequenceCounter + 1)) := by
  have h0 : (freshState cs st).seq.lastTimestamp = 0 := rfl
  have hle1 := runState_last_le cfg clock wait (freshState cs st) h0 hc (n + 1)
  have hle2 := runState_last_le cfg clock wait (freshState cs st) h0 hc (n + 2)
  have hts1 : tsTicks ((runState cfg clock wait (freshState cs st) (n + 1)).seq.lastTimestamp)
      < 2 ^ 60 := by
    unfold tsTicks at hb1 ⊢
    omega
  have hts2 : tsTicks ((runState cfg clock wait (freshState cs st) (n + 2)).seq.lastTimestamp)
      < 2 ^ 60 := by
    unfold tsTicks at hb2 ⊢
    omega
  refine ⟨_, _, _, _, output_ok cfg hA hB clock wait _ n,
    output_ok cfg hA hB clock wait _ (n + 1),
    extractTimestamp_render cfg _ _ _ hsep hlen hhex hpre hts1,
    extractTimestamp_render cfg _ _ _ hsep hlen hhex hpre hts2, ?_, ?_⟩
  · exact_mod_cast runState_last_mono cfg clock wait (freshState cs st) h0 hc (n + 1)
  · have hstep := getTimestamp_lex (clock (n + 1)) (wait (n + 1))
      (runState cfg clock wait (freshState cs st) (n + 1)).seq hle1
      (fun hq hf => hov (n + 1) hq hf)
    have hr : (runState cfg clock wait (freshState cs st) (n + 2)).seq =
        getTimestamp (clock (n + 1)) (wait (n + 1))
          (runState cfg clock wait (freshState cs st) (n + 1)).seq :=
      generate_seq cfg (clock (n + 1)) (wait (n + 1))
        (runState cfg clock wait (freshState cs st) (n + 1))
    rw [hr]
    exact hstep

/-- Twelve lowercase-hex characters acting as the node id in witnesses. -/
def wNodeId : List Char := ['0', '1', '2', '3', '4', '5', '6', '7', '8', '9', 'a', 'b']

def c6Config : Config := ⟨wNodeId, none, '-', none, none, none⟩

def c6clock : Nat → Nat := fun n => 1000 + n

def c6wait : Nat → Nat := fun n => 1001 + n

theorem c6_decode_monotone_witness :
    ∃ (a b : List Char) (qa qb : ℚ),
      output c6Config c6clock c6wait (freshState 3 0) 0 = .ok a ∧
      output c6Config c6clock c6wait (freshState 3 0) 1 = .ok b ∧
      extractTimestamp c6Config a = .ok qa ∧
      extractTimestamp c6Config b = .ok qb ∧ qa ≤ qb ∧
      ((runState c6Config c6clock c6wait (freshState 3 0) 1).seq.lastTimestamp <
        (runState c6Config c6clock c6wait (freshState 3 0) 2).seq.lastTimestamp ∨
       ((runState c6Config c6clock c6wait (freshState 3 0) 2).seq.lastTimestamp =
          (runState c6Config c6clock c6wait (freshState 3 0) 1).seq.lastTimestamp ∧
        (runState c6Config c6clock c6wait (freshState 3 0) 2).seq.sequenceCounter =
          (runState c6Config c6clock c6wait (freshState 3 0) 1).seq.sequenceCounter + 1)) :=
  c6_decode_monotone c6Config c6clock c6wait 3 0 (by decide) (by decide) (by decide)
    rfl rfl rfl
    (fun n => ⟨by simp only [c6clock, c6wait]; omega, by simp only [c6clock, c6wait]; omega⟩)
    (fun m _ _ => by simp only [c6clock, c6wait]; omega)
    0 (by decide) (by decide)

/-! ## C5: distinctness of successive canonical texts -/

/-- Equal canonical texts force equal clock ticks and congruent (mod `2^15`)
clock-sequence composites: the rendering keeps only 15 of the 16 bits of
`clockSeqWithSeq` because `| 0x80` overwrites its top bit. -/
theorem renderCore_inj (sep : Char) (nodeId : List Char) {l1 c1 q1 l2 c2 q2 : Nat}
    (ht1 : tsTicks l1 < 2 ^ 60) (ht2 : tsTicks l2 < 2 ^ 60)
    (h : renderCore sep nodeId l1 c1 q1 = renderCore sep nodeId l2 c2 q2) :
    l1 = l2 ∧
    clockSeqWithSeq c1 q1 % 2 ^ 15 = clockSeqWithSeq c2 q2 % 2 ^ 15 := by
  have hx1 : clockSeqWithSeq c1 q1 < 2 ^ 16 := Nat.mod_lt _ (by norm_num)
  have hx2 : clockSeqWithSeq c2 q2 < 2 ^ 16 := Nat.mod_lt _ (by norm_num)
  unfold renderCore at h
  obtain ⟨hA, h⟩ := List.append_inj h (by rw [timeLowStr_length, timeLowStr_length])
  injection h with _ h
  obtain ⟨hB, h⟩ := List.append_inj h (by rw [timeMidStr_length, timeMidStr_length])
  injection h with _ h
  obtain ⟨hC, h⟩ := List.append_inj h (by rw [timeHighStr_length, timeHighStr_length])
  injection h with _ h
  obtain ⟨hD, h⟩ := List.append_inj h (by rw [clockSeqStr_length hx1, clockSeqStr_length hx2])
  unfold clockSeqStr at hD
  obtain ⟨hDh, hDl⟩ := List.append_inj hD
    (by rw [toHexPad_length (by norm_num) (clockSeqHighVal_lt hx1),
      toHexPad_length (by norm_num) (clockSeqHighVal_lt hx2)])
  have hlow : timeLowVal (tsTicks l1) = timeLowVal (tsTicks l2) := by
    have := congrArg fromHex hA
    rwa [show timeLowStr (tsTicks l1) = toHexPad 8 (timeLowVal (tsTicks l1)) from rfl,
      show timeLowStr (tsTicks l2) = toHexPad 8 (timeLowVal (tsTicks l2)) from rfl,
      fromHex_toHexPad, fromHex_toHexPad] at this
  have hmid : timeMidVal (tsTicks l1) = timeMidVal (tsTicks l2) := by
    have := congrArg fromHex hB
    rwa [show timeMidStr (tsTicks l1) = toHexPad 4 (timeMidVal (tsTicks l1)) from rfl,
      show timeMidStr (tsTicks l2) = toHexPad 4 (timeMidVal (tsTicks l2)) from rfl,
      fromHex_toHexPad, fromHex_toHexPad] at this
  have hhigh : timeHighVal (tsTicks l1) = timeHighVal (tsTicks l2) := by
    have := congrArg fromHex hC
    rwa [show timeHighStr (tsTicks l1) = toHexPad 4 (timeHighVal (tsTicks l1)) from rfl,
      show timeHighStr (tsTicks l2) = toHexPad 4 (timeHighVal (tsTicks l2)) from rfl,
      fromHex_toHexPad, fromHex_toHexPad] at this
  have hts : tsTicks l1 = tsTicks l2 := by
    rw [timeHighVal_eq, timeHighVal_eq] at hhigh
    unfold timeLowVal at hlow
    unfold timeMidVal at hmid
    omega
  have hl : l1 = l2 := by
    unfold tsTicks at hts
    omega
  have hh : clockSeqHighVal (clockSeqWithSeq c1 q1) = clockSeqHighVal (clockSeqWithSeq c2 q2) := by
    have := congrArg fromHex hDh
    rwa [fromHex_toHexPad, fromHex_toHexPad] at this
  have hlo : clockSeqLowVal (clockSeqWithSeq c1 q1) = clockSeqLowVal (clockSeqWithSeq c2 q2) := by
    have := congrArg fromHex hDl
    rwa [fromHex_toHexPad, fromHex_toHexPad] at this
  refine ⟨hl, ?_⟩
  have hd1 : clockSeqWithSeq c1 q1 / 2 ^ 8 < 256 := by omega
  have hd2 : clockSeqWithSeq c2 q2 / 2 ^ 8 < 256 := by omega
  unfold clockSeqHighVal at hh
  rw [or128_eq hd1, or128_eq hd2] at hh
  unfold clockSeqLowVal at hlo
  omega

theorem runState_clockSeq (cfg : Config) (clock wait : Nat → Nat) (cs st : Nat) :
    ∀ n, (runState cfg clock wait (freshState cs st) n).seq.clockSeq = cs := by
  intro n
  induction n with
  | zero => rfl
  | succ n ih =>
    show ((generate cfg (clock n) (wait n)
      (runState cfg clock wait (freshState cs st) n)).1).seq.clockSeq = cs
    rw [generate_seq, getTimestamp_clockSeq]
    exact ih

theorem getTimestamp_dichotomy (now nowW : Nat) (s : SeqState)
    (h1 : s.lastTimestamp ≤ now) (hnof : s.sequenceCounter + 1 ≤ 0xffff) :
    ((getTimestamp now nowW s).lastTimestamp = s.lastTimestamp ∧
      (getTimestamp now nowW s).sequenceCounter = s.sequenceCounter + 1) ∨
    s.lastTimestamp < (getTimestamp now nowW s).lastTimestamp := by
  unfold getTimestamp
  split
  next heq =>
    rw [if_neg (by omega)]
    left
    exact ⟨rfl, rfl⟩
  next hne =>
    right
    dsimp only
    omega

/-- While the emitted timestamp stays constant, each successive call adds
exactly one to the emitted sequence counter (no overflow can occur while
every emitted counter stays below `2^15`). -/
theorem seq_run_arith (cfg : Config) (clock wait : Nat → Nat) (cs st N : Nat)
    (hc : Chronological clock wait)
    (hseq : ∀ m, m < N →
      (runState cfg clock wait (freshState cs st) (m + 1)).seq.sequenceCounter < 2 ^ 15) :
    ∀ d i, i + d < N →
      (runState cfg clock wait (freshState cs st) (i + 1)).seq.lastTimestamp =
        (runState cfg clock wait (freshState cs st) (i + d + 1)).seq.lastTimestamp →
      (runState cfg clock wait (freshState cs st) (i + d + 1)).seq.sequenceCounter =
        (runState cfg clock wait (freshState cs st) (i + 1)).seq.sequenceCounter + d := by
  intro d
  induction d with
  | zero => intro i _ _; simp
  | succ d ih =>
    intro i hiN heq
    have hmono : Monotone
        (fun n => (runState cfg clock wait (freshState cs st) n).seq.lastTimestamp) :=
      monotone_nat_of_le_succ (runState_last_mono cfg clock wait _ rfl hc)
    have h1 : (runState cfg clock wait (freshState cs st) (i + 1)).seq.lastTimestamp ≤
        (runState cfg clock wait (freshState cs st) (i + d + 1)).seq.lastTimestamp :=
      hmono (by omega)
    have h2 : (runState cfg clock wait (freshState cs st) (i + d + 1)).seq.lastTimestamp ≤
        (runState cfg clock wait (freshState cs st) (i + d + 2)).seq.lastTimestamp :=
      hmono (by omega)
    have heq2 : (runState cfg clock wait (freshState cs st) (i + 1)).seq.lastTimestamp =
        (runState cfg clock wait (freshState cs st) (i + d + 2)).seq.lastTimestamp := heq
    have heqa : (runState cfg clock wait (freshState cs st) (i + 1)).seq.lastTimestamp =
        (runState cfg clock wait (freshState cs st) (i + d + 1)).seq.lastTimestamp := by
      omega
    have heqb : (runState cfg clock wait (freshState cs st) (i + d + 1)).seq.lastTimestamp =
        (runState cfg clock wait (freshState cs st) (i + d + 2)).seq.lastTimestamp := by
      omega
    have hpre : (runState cfg clock wait (freshState cs st) (i + d + 1)).seq.sequenceCounter
        < 2 ^ 15 := hseq (i + d) (by omega)
    have hle := runState_last_le cfg clock wait (freshState cs st) rfl hc (i + d + 1)
    have hdich := getTimestamp_dichotomy (clock (i + d + 1)) (wait (i + d + 1))
      (runState cfg clock wait (freshState cs st) (i + d + 1)).seq hle (by omega)
    have hr : (runState cfg clock wait (freshState cs st) (i + d + 2)).seq =
        getTimestamp (clock (i + d + 1)) (wait (i + d + 1))
          (runState cfg clock wait (freshState cs st) (i + d + 1)).seq :=
      generate_seq cfg (clock (i + d + 1)) (wait (i + d + 1))
        (runState cfg clock wait (freshState cs st) (i + d + 1))
    rcases hdich with ⟨hl, hs⟩ | hl
    · have hihd := ih i (by omega) heqa
      show (runState cfg clock wait (freshState cs st) (i + d + 2)).seq.sequenceCounter =
        (runState cfg clock wait (freshState cs st) (i + 1)).seq.sequenceCounter + (d + 1)
      rw [hr, hs, hihd]
      omega
    · rw [← hr] at hl
      omega

/-- C5 (amended): on one instance under a nondecreasing clock whose readings
keep the tick count within the 60 timestamp bits, any two distinct calls
among the first `N` produce distinct outputs, provided every per-tick
sequence counter emitted in that range stays below `2^15` (0x8000).  The
bound is necessary: the rendering discards bit 15 of `clockSeq + sequence`
(see the counterexample). -/
theorem c5_distinct (cfg : Config) (clock wait : Nat → Nat) (cs st N : Nat)
    (hpre : cfg.idPrefix = none)
    (hA : cfg.validAfter = none) (hB : cfg.validBefore = none)
    (hc : Chronological clock wait)
    (hbound : ∀ m, m ≤ N → tsTicks (clock m) < 2 ^ 60)
    (hseq : ∀ m, m < N →
      (runState cfg clock wait (freshState cs st) (m + 1)).seq.sequenceCounter < 2 ^ 15)
    (i j : Nat) (hi : i < N) (hj : j < N) (hij : i ≠ j) :
    output cfg clock wait (freshState cs st) i ≠
      output cfg clock wait (freshState cs st) j := by
  wlog hlt : i < j generalizing i j with H
  · exact (H j i hj hi (Ne.symm hij) (by omega)).symm
  intro hout
  rw [output_ok cfg hA hB clock wait _ i, output_ok cfg hA hB clock wait _ j,
    runState_clockSeq cfg clock wait cs st, runState_clockSeq cfg clock wait cs st] at hout
  injection hout with hout
  have hfull : ∀ l q, renderFull cfg l cs q = renderCore cfg.separator cfg.nodeId l cs q := by
    intro l q
    unfold renderFull
    rw [hpre]
  rw [hfull, hfull] at hout
  have hle_i := runState_last_le cfg clock wait (freshState cs st) rfl hc (i + 1)
  have hle_j := runState_last_le cfg clock wait (freshState cs st) rfl hc (j + 1)
  have ht_i : tsTicks
      ((runState cfg clock wait (freshState cs st) (i + 1)).seq.lastTimestamp) < 2 ^ 60 := by
    have := hbound (i + 1) (by omega)
    unfold tsTicks at *
    omega
  have ht_j : tsTicks
      ((runState cfg clock wait (freshState cs st) (j + 1)).seq.lastTimestamp) < 2 ^ 60 := by
    have := hbound (j + 1) (by omega)
    unfold tsTicks at *
    omega
  obtain ⟨hl, hxmod⟩ := renderCore_inj cfg.separator cfg.nodeId ht_i ht_j hout
  have hj' : i + (j - i) = j := by omega
  have harith := seq_run_arith cfg clock wait cs st N hc hseq (j - i) i
    (by rw [hj']; omega) (by rw [hj']; exact hl)
  rw [hj'] at harith
  have hsi := hseq i hi
  have hsj := hseq j hj
  unfold clockSeqWithSeq at hxmod
  omega

theorem c5_distinct_witness :
    output c6Config c6clock c6wait (freshState 3 0) 0 ≠
      output c6Config c6clock c6wait (freshState 3 0) 1 :=
  c5_distinct c6Config c6clock c6wait 3 0 2 rfl rfl rfl
    (fun n => ⟨by simp only [c6clock, c6wait]; omega, by simp only [c6clock, c6wait]; omega⟩)
    (fun m hm => by interval_cases m <;> decide)
    (fun m hm => by interval_cases m <;> decide)
    0 1 (by omega) (by omega) (by omega)

/-- A clock frozen at 1000 ms for the whole run. -/
def c5clock : Nat → Nat := fun _ => 1000

def c5wait : Nat → Nat := fun _ => 1000

/-- Under the frozen clock the sequencer state after `n + 1` calls is
`⟨1000, n, clockSeq⟩` for every `n ≤ 0xffff` (no overflow fires yet). -/
theorem runState_const_clock (cs st : Nat) :
    ∀ n, n ≤ 0xffff →
      (runState c6Config c5clock c5wait (freshState cs st) (n + 1)).seq =
        ⟨1000, n, cs⟩ := by
  intro n
  induction n with
  | zero =>
    intro _
    rfl
  | succ n ih =>
    intro hn
    have hx := ih (by omega)
    show ((generate c6Config (c5clock (n + 1)) (c5wait (n + 1))
      (runState c6Config c5clock c5wait (freshState cs st) (n + 1))).1).seq =
      ⟨1000, n + 1, cs⟩
    rw [generate_seq, hx]
    show getTimestamp 1000 1000 ⟨1000, n, cs⟩ = ⟨1000, n + 1, cs⟩
    unfold getTimestamp
    rw [if_pos rfl, if_neg (by dsimp only; omega)]

/-- C5 counterexample: with the clock standing still, call 0 (sequence 0)
and call 32768 (sequence 0x8000) render the very same canonical text — both
successful outputs, both among the first 10^6 calls of one instance under a
nondecreasing clock. -/
theorem c5_counterexample :
    output c6Config c5clock c5wait (freshState 0 0) 0 =
      output c6Config c5clock c5wait (freshState 0 0) 32768 ∧
    output c6Config c5clock c5wait (freshState 0 0) 0 =
      .ok (renderFull c6Config 1000 0 0) ∧
    (32768 : Nat) < 10 ^ 6 := by
  have h0 := output_ok c6Config rfl rfl c5clock c5wait (freshState 0 0) 0
  have h1 := output_ok c6Config rfl rfl c5clock c5wait (freshState 0 0) 32768
  have hs0 := runState_const_clock 0 0 0 (by norm_num)
  have hs32 := runState_const_clock 0 0 32768 (by norm_num)
  rw [hs0] at h0
  rw [hs32] at h1
  refine ⟨?_, ?_, by norm_num⟩
  · rw [h0, h1]
    exact congrArg Except.ok (by decide)
  · rw [h0]

/-! ## C4: the validator's result shape -/

/-- Consume `n` case-insensitive hex digits, returning the rest. -/
def hexRun : Nat → List Char → Option (List Char)
  | 0, rest => some rest
  | _ + 1, [] => none
  | n + 1, c :: rest => if isHexDigitCI c then hexRun n rest else none

/-- Consume the configured separator character. -/
def expectSep (sep : Char) : List Char → Option (List Char)
  | [] => none
  | c :: rest => if c = sep then some rest else none

/-- The validator's anchored pattern
`^[0-9a-f]{8}S[0-9a-f]{4}S[0-9a-f]{4}S[0-9a-f]{4}S[0-9a-f]{12}$` with flag
`i`, `S` the escaped separator (src/index.js lines 237-239). -/
def formatOk (sep : Char) (l : List Char) : Bool :=
  match (((((((((hexRun 8 l).bind (expectSep sep)).bind (hexRun 4)).bind
      (expectSep sep)).bind (hexRun 4)).bind (expectSep sep)).bind
      (hexRun 4)).bind (expectSep sep)).bind (hexRun 12)) with
  | some [] => true
  | _ => false

/-- The result object of `validate`, modelled as its JS key list plus the
boolean/string fields.  The numeric `entropy` value (a float computed from
`Math.log2`) is recorded only as the presence of its key; no claim here
depends on its value. -/
structure ValidationResult where
  keys : List String
  valid : Bool
  isValid : Bool
  reason : Option String
  version : Option String
deriving DecidableEq

/-- Key list of every failure-shaped result object in `validate`. -/
def validateKeysFailure : List String := ["valid", "isValid", "reason", "version", "entropy"]

/-- Key list of the success result object in `validate`. -/
def validateKeysSuccess : List String := ["valid", "isValid", "version", "entropy"]

/-- The prefix stripping at the top of `validate` (src/index.js lines
230-235): drop `prefix.length + 1` characters when the id starts with
`prefix + separator`. -/
def cleanIdOf (cfg : Config) (allowPrefix : Bool) (id : List Char) : List Char :=
  match cfg.idPrefix with
  | some p =>
    if allowPrefix && !p.isEmpty && (p ++ [cfg.separator]).isPrefixOf id then
      id.drop (p.length + 1)
    else id
  | none => id

/-- `validate` (src/index.js lines 227-296).  The `strict` option is read
but never used by the source, so it is omitted here. -/
def validate (cfg : Config) (allowPrefix : Bool) (id : List Char) : ValidationResult :=
  if !formatOk cfg.separator (cleanIdOf cfg allowPrefix id) then
    ⟨validateKeysFailure, false, false, some "Invalid format", none⟩
  else
    match extractTimestamp cfg (cleanIdOf cfg allowPrefix id) with
    | .error _ => ⟨validateKeysFailure, false, false, some "Invalid timestamp", some "uusid"⟩
    | .ok t =>
      if numTruthy cfg.validAfter ∧ t < ((cfg.validAfter.getD 0 : Int) : ℚ) then
        ⟨validateKeysFailure, false, false, some "Before valid range", some "uusid"⟩
      else if numTruthy cfg.validBefore ∧ t > ((cfg.validBefore.getD 0 : Int) : ℚ) then
        ⟨validateKeysFailure, false, false, some "After valid range", some "uusid"⟩
      else
        ⟨validateKeysSuccess, true, true, none, some "uusid"⟩

/-- C4 (amended): `validate` always returns a structured result — one of two
fixed key shapes, both containing `valid`, `isValid`, `version` and
`entropy` — and no result carries a `timestamp`, `collisionProbability` or
`warnings` field; no birthday-bound computation exists in the code. -/
theorem c4_result_shape (cfg : Config) (allowPrefix : Bool) (id : List Char) :
    ((validate cfg allowPrefix id).keys = validateKeysFailure ∨
      (validate cfg allowPrefix id).keys = validateKeysSuccess) ∧
    "valid" ∈ (validate cfg allowPrefix id).keys ∧
    "isValid" ∈ (validate cfg allowPrefix id).keys ∧
    "version" ∈ (validate cfg allowPrefix id).keys ∧
    "entropy" ∈ (validate cfg allowPrefix id).keys ∧
    "collisionProbability" ∉ (validate cfg allowPrefix id).keys ∧
    "warnings" ∉ (validate cfg allowPrefix id).keys ∧
    "timestamp" ∉ (validate cfg allowPrefix id).keys := by
  unfold validate
  split
  · decide
  · split
    · decide
    · split
      · decide
      · split
        · decide
        · decide

/-- The structurally valid canonical id from the specification's example. -/
def c4Id : List Char := "01928374-5678-1abc-8def-123456789abc".toList

/-- C4 counterexample: a structurally valid canonical text passes
validation, yet the returned record carries no `collisionProbability`,
`warnings` or `timestamp` field — the claimed birthday-bound field does not
exist. -/
theorem c4_counterexample :
    formatOk '-' c4Id = true ∧
    (validate c6Config true c4Id).valid = true ∧
    "collisionProbability" ∉ (validate c6Config true c4Id).keys ∧
    "warnings" ∉ (validate c6Config true c4Id).keys ∧
    "timestamp" ∉ (validate c6Config true c4Id).keys := by
  decide

/-! ## C9: hierarchical ids and `parseHierarchy` -/

/-- The stripping used by the format transcoders (src/index.js line 152 and
158): remove every occurrence of the configured separator only. -/
def stripSep (sep : Char) (l : List Char) : List Char :=
  l.filter (fun c => !(c == sep))

/-- JS `String.prototype.split` with a single-character separator. -/
def splitOnChar (sep : Char) : List Char → List (List Char)
  | [] => [[]]
  | c :: rest =>
    if c = sep then [] :: splitOnChar sep rest
    else
      match splitOnChar sep rest with
      | [] => [[c]]
      | p :: ps => (c :: p) :: ps

/-- JS `Array.prototype.join` with a single-character separator. -/
def joinChar (sep : Char) : List (List Char) → List Char
  | [] => []
  | [p] => p
  | p :: ps => p ++ sep :: joinChar sep ps

/-- The root segments built by `hierarchical` (src/index.js lines 159-166):
`levels` contiguous pieces of length `⌊len/levels⌋`, the last absorbing the
remainder. -/
def hierRootParts (levels : Nat) (id : List Char) : List (List Char) :=
  (List.range levels).map (fun i =>
    if i = levels - 1 then id.drop (i * (id.length / levels))
    else (id.drop (i * (id.length / levels))).take (id.length / levels))

/-- Arguments of one internal `this.generate()` call (the sequencer fields
it renders). -/
structure RenderArgs where
  last : Nat
  clockSeq : Nat
  seq : Nat
deriving DecidableEq

/-- The fixed-length 10-character child segment: first 10 chars of the
de-separated text of a newly generated id (src/index.js lines 151-153). -/
def childSeg (cfg : Config) (a : RenderArgs) : List Char :=
  (stripSep cfg.separator (renderFull cfg a.last a.clockSeq a.seq)).take 10

/-- The root hierarchical id (src/index.js lines 155-168), for a given
internal `generate` outcome. -/
def hierarchicalRoot (levels : Nat) (hsep : Char) (cfg : Config) (a : RenderArgs) :
    List Char :=
  joinChar hsep (hierRootParts levels
    (stripSep cfg.separator (renderFull cfg a.last a.clockSeq a.seq)))

/-- Repeated child construction: each call appends `hsep` plus one
fixed-length segment from a fresh generation (src/index.js line 154). -/
def hierChain (hsep : Char) (cfg : Config) : List Char → List RenderArgs → List Char
  | root, [] => root
  | root, a :: rest => hierChain hsep cfg (root ++ hsep :: childSeg cfg a) rest

/-- The record built by `parseHierarchy` (src/index.js lines 398-412). -/
structure Hierarchy where
  depth : Nat
  parts : List (List Char)
  parent : Option (List Char)
  root : List Char
  leaf : List Char
deriving DecidableEq

/-- `parseHierarchy` (src/index.js lines 398-412); `Math.max(0, _)` is the
truncated subtraction. -/
def parseHierarchy (hsep : Char) (id : List Char) : Hierarchy :=
  { depth := (splitOnChar hsep id).length - 3
    parts := splitOnChar hsep id
    parent := if 3 < (splitOnChar hsep id).length then
        some (joinChar hsep (splitOnChar hsep id).dropLast)
      else none
    root := joinChar hsep ((splitOnChar hsep id).take 3)
    leaf := ((splitOnChar hsep id).getLast?).getD [] }

theorem splitOnChar_no_sep {sep : Char} : ∀ {l : List Char}, (∀ c ∈ l, c ≠ sep) →
    splitOnChar sep l = [l] := by
  intro l
  induction l with
  | nil => intro _; rfl
  | cons c rest ih =>
    intro h
    have hc : c ≠ sep := h c (by simp)
    show splitOnChar sep (c :: rest) = [c :: rest]
    unfold splitOnChar
    rw [if_neg hc, ih (fun x hx => h x (by simp [hx]))]

theorem splitOnChar_append_sep {sep : Char} {b : List Char} :
    ∀ {a : List Char}, (∀ c ∈ a, c ≠ sep) →
    splitOnChar sep (a ++ sep :: b) = a :: splitOnChar sep b := by
  intro a
  induction a with
  | nil =>
    intro _
    show splitOnChar sep (sep :: b) = [] :: splitOnChar sep b
    rw [splitOnChar]
    rw [if_pos rfl]
  | cons c a' ih =>
    intro h
    have hc : c ≠ sep := h c (by simp)
    show splitOnChar sep (c :: (a' ++ sep :: b)) = (c :: a') :: splitOnChar sep b
    rw [splitOnChar]
    rw [if_neg hc, ih (fun x hx => h x (by simp [hx]))]

theorem splitOnChar_joinChar {sep : Char} : ∀ {parts : List (List Char)}, parts ≠ [] →
    (∀ p ∈ parts, ∀ c ∈ p, c ≠ sep) →
    splitOnChar sep (joinChar sep parts) = parts := by
  intro parts
  induction parts with
  | nil => intro h _; exact absurd rfl h
  | cons p ps ih =>
    intro _ h
    match ps with
    | [] => exact splitOnChar_no_sep (h p (by simp))
    | q :: qs =>
      show splitOnChar sep (p ++ sep :: joinChar sep (q :: qs)) = p :: q :: qs
      rw [splitOnChar_append_sep (h p (by simp)),
        ih (by simp) (fun r hr c hc => h r (by simp [hr]) c hc)]

theorem joinChar_append_singleton {sep : Char} {s : List Char} :
    ∀ {parts : List (List Char)}, parts ≠ [] →
    joinChar sep (parts ++ [s]) = joinChar sep parts ++ sep :: s := by
  intro parts
  induction parts with
  | nil => intro h; exact absurd rfl h
  | cons p ps ih =>
    intro _
    match ps with
    | [] => rfl
    | q :: qs =>
      show p ++ sep :: joinChar sep ((q :: qs) ++ [s]) =
        (p ++ sep :: joinChar sep (q :: qs)) ++ sep :: s
      rw [ih (by simp)]
      simp

theorem hierChain_join {hsep : Char} {cfg : Config} :
    ∀ (l : List RenderArgs) (parts : List (List Char)), parts ≠ [] →
    hierChain hsep cfg (joinChar hsep parts) l =
      joinChar hsep (parts ++ l.map (childSeg cfg)) := by
  intro l
  induction l with
  | nil => intro parts _; simp [hierChain]
  | cons a rest ih =>
    intro parts hne
    show hierChain hsep cfg (joinChar hsep parts ++ hsep :: childSeg cfg a) rest = _
    rw [← joinChar_append_singleton hne, ih (parts ++ [childSeg cfg a]) (by simp)]
    simp

theorem stripSep_of_all_hex {sep : Char} (hsep : isLowerHex sep = false) {l : List Char}
    (hl : ∀ c ∈ l, isLowerHex c = true) : stripSep sep l = l := by
  unfold stripSep
  rw [List.filter_eq_self]
  intro c hc
  have h1 := hl c hc
  by_cases h2 : c = sep
  · rw [h2] at h1; rw [h1] at hsep; cases hsep
  · simp [h2]

theorem stripSep_append (sep : Char) (a b : List Char) :
    stripSep sep (a ++ b) = stripSep sep a ++ stripSep sep b := by
  simp [stripSep]

theorem stripSep_cons_sep (sep : Char) (b : List Char) :
    stripSep sep (sep :: b) = stripSep sep b := by
  simp [stripSep]

/-- De-separating the canonical text yields the 32 concatenated hex chars. -/
theorem stripSep_render (cfg : Config) (hsep : isLowerHex cfg.separator = false)
    (hlen : cfg.nodeId.length = 12) (hhex : ∀ c ∈ cfg.nodeId, isLowerHex c = true)
    (hpre : cfg.idPrefix = none) (last clockSeq seq : Nat) :
    stripSep cfg.separator (renderFull cfg last clockSeq seq) =
      timeLowStr (tsTicks last) ++
        (timeMidStr (tsTicks last) ++
          (timeHighStr (tsTicks last) ++
            (clockSeqStr (clockSeqWithSeq clockSeq seq) ++ cfg.nodeId))) := by
  have hfull : renderFull cfg last clockSeq seq =
      renderCore cfg.separator cfg.nodeId last clockSeq seq := by
    unfold renderFull
    rw [hpre]
  rw [hfull]
  unfold renderCore
  rw [nodeStr_eq hlen]
  rw [stripSep_append, stripSep_cons_sep, stripSep_append, stripSep_cons_sep,
    stripSep_append, stripSep_cons_sep, stripSep_append, stripSep_cons_sep]
  rw [stripSep_of_all_hex (l := timeLowStr (tsTicks last)) hsep
      (fun c hc => toHexPad_mem_hex c hc),
    stripSep_of_all_hex (l := timeMidStr (tsTicks last)) hsep
      (fun c hc => toHexPad_mem_hex c hc),
    stripSep_of_all_hex (l := timeHighStr (tsTicks last)) hsep
      (fun c hc => toHexPad_mem_hex c hc),
    stripSep_of_all_hex hsep clockSeqStr_mem_hex,
    stripSep_of_all_hex hsep hhex]

theorem stripSep_render_spec (cfg : Config) (hsep : isLowerHex cfg.separator = false)
    (hlen : cfg.nodeId.length = 12) (hhex : ∀ c ∈ cfg.nodeId, isLowerHex c = true)
    (hpre : cfg.idPrefix = none) (a : RenderArgs) :
    (stripSep cfg.separator (renderFull cfg a.last a.clockSeq a.seq)).length = 32 ∧
    ∀ c ∈ stripSep cfg.separator (renderFull cfg a.last a.clockSeq a.seq),
      isLowerHex c = true := by
  rw [stripSep_render cfg hsep hlen hhex hpre]
  have hx : clockSeqWithSeq a.clockSeq a.seq < 2 ^ 16 := Nat.mod_lt _ (by norm_num)
  constructor
  · simp only [List.length_append, timeLowStr_length, timeMidStr_length,
      timeHighStr_length, clockSeqStr_length hx, hlen]
  · intro c hc
    simp only [List.mem_append] at hc
    rcases hc with hc | hc | hc | hc | hc
    · exact toHexPad_mem_hex c hc
    · exact toHexPad_mem_hex c hc
    · exact toHexPad_mem_hex c hc
    · exact clockSeqStr_mem_hex c hc
    · exact hhex c hc

theorem hex_ne_dot {c : Char} (h : isLowerHex c = true) : c ≠ '.' := by
  intro hc
  rw [hc] at h
  cases h

theorem hierRootParts_length (id : List Char) : (hierRootParts 3 id).length = 3 := by
  simp [hierRootParts]

theorem hierRootParts_subset {id : List Char} {p : List Char}
    (hp : p ∈ hierRootParts 3 id) : ∀ c ∈ p, c ∈ id := by
  intro c hc
  unfold hierRootParts at hp
  simp only [List.mem_map, List.mem_range] at hp
  obtain ⟨i, _, rfl⟩ := hp
  split at hc
  · exact List.drop_subset _ _ hc
  · exact List.drop_subset _ _ (List.take_subset _ _ hc)

/-- C9: the default-3-level root has exactly 3 dot-separated segments, and
after appending `k` child segments (each the 10-char prefix of a fresh
generation's de-separated text) `parseHierarchy` reports `depth = k`, the
`root` field is the original 3-segment root, and the `leaf` is the last
appended child segment. -/
theorem c9_hierarchy (cfg : Config)
    (hsep : isLowerHex cfg.separator = false)
    (hlen : cfg.nodeId.length = 12) (hhex : ∀ c ∈ cfg.nodeId, isLowerHex c = true)
    (hpre : cfg.idPrefix = none)
    (a0 : RenderArgs) (children : List RenderArgs) :
    (splitOnChar '.' (hierarchicalRoot 3 '.' cfg a0)).length = 3 ∧
    (parseHierarchy '.' (hierChain '.' cfg (hierarchicalRoot 3 '.' cfg a0) children)).depth =
      children.length ∧
    (parseHierarchy '.' (hierChain '.' cfg (hierarchicalRoot 3 '.' cfg a0) children)).parts =
      hierRootParts 3 (stripSep cfg.separator (renderFull cfg a0.last a0.clockSeq a0.seq)) ++
        children.map (childSeg cfg) ∧
    (parseHierarchy '.' (hierChain '.' cfg (hierarchicalRoot 3 '.' cfg a0) children)).root =
      hierarchicalRoot 3 '.' cfg a0 ∧
    (children ≠ [] →
      (parseHierarchy '.' (hierChain '.' cfg (hierarchicalRoot 3 '.' cfg a0) children)).leaf =
        ((children.map (childSeg cfg)).getLast?).getD []) := by
  obtain ⟨hL0, hH0⟩ := stripSep_render_spec cfg hsep hlen hhex hpre a0
  have hparts_len := hierRootParts_length
    (stripSep cfg.separator (renderFull cfg a0.last a0.clockSeq a0.seq))
  have hparts_ne : hierRootParts 3
      (stripSep cfg.separator (renderFull cfg a0.last a0.clockSeq a0.seq)) ≠ [] := by
    intro h
    rw [h] at hparts_len
    cases hparts_len
  have hnodot_root : ∀ p ∈ hierRootParts 3
      (stripSep cfg.separator (renderFull cfg a0.last a0.clockSeq a0.seq)),
      ∀ c ∈ p, c ≠ '.' := by
    intro p hp c hc
    exact hex_ne_dot (hH0 c (hierRootParts_subset hp c hc))
  have hnodot_seg : ∀ s ∈ children.map (childSeg cfg), ∀ c ∈ s, c ≠ '.' := by
    intro s hs c hc
    simp only [List.mem_map] at hs
    obtain ⟨a, _, rfl⟩ := hs
    obtain ⟨_, hHa⟩ := stripSep_render_spec cfg hsep hlen hhex hpre a
    exact hex_ne_dot (hHa c (List.take_subset _ _ hc))
  have hchain : hierChain '.' cfg (hierarchicalRoot 3 '.' cfg a0) children =
      joinChar '.' (hierRootParts 3
        (stripSep cfg.separator (renderFull cfg a0.last a0.clockSeq a0.seq)) ++
        children.map (childSeg cfg)) := by
    unfold hierarchicalRoot
    exact hierChain_join children _ hparts_ne
  have hsplit : splitOnChar '.' (hierChain '.' cfg (hierarchicalRoot 3 '.' cfg a0) children) =
      hierRootParts 3
        (stripSep cfg.separator (renderFull cfg a0.last a0.clockSeq a0.seq)) ++
        children.map (childSeg cfg) := by
    rw [hchain]
    refine splitOnChar_joinChar (by simp [hparts_ne]) ?_
    intro p hp
    rcases List.mem_append.mp hp with h | h
    · exact hnodot_root p h
    · exact hnodot_seg p h
  have hrootsplit : splitOnChar '.' (hierarchicalRoot 3 '.' cfg a0) =
      hierRootParts 3
        (stripSep cfg.separator (renderFull cfg a0.last a0.clockSeq a0.seq)) := by
    unfold hierarchicalRoot
    exact splitOnChar_joinChar hparts_ne hnodot_root
  refine ⟨?_, ?_, ?_, ?_, ?_⟩
  · rw [hrootsplit, hparts_len]
  · unfold parseHierarchy
    rw [hsplit]
    simp only [List.length_append, List.length_map, hparts_len]
    omega
  · unfold parseHierarchy
    rw [hsplit]
  · unfold parseHierarchy
    rw [hsplit, List.take_left' hparts_len]
    rfl
  · intro hne
    unfold parseHierarchy
    rw [hsplit, List.getLast?_append_of_ne_nil _ (by simpa using hne)]

def c9Child : RenderArgs := ⟨1000, 0, 1⟩

theorem c9_hierarchy_witness :
    (splitOnChar '.' (hierarchicalRoot 3 '.' c6Config ⟨1000, 0, 0⟩)).length = 3 ∧
    (parseHierarchy '.' (hierChain '.' c6Config
        (hierarchicalRoot 3 '.' c6Config ⟨1000, 0, 0⟩) [c9Child])).depth = 1 ∧
    (parseHierarchy '.' (hierChain '.' c6Config
        (hierarchicalRoot 3 '.' c6Config ⟨1000, 0, 0⟩) [c9Child])).parts =
      hierRootParts 3 (stripSep c6Config.separator (renderFull c6Config 1000 0 0)) ++
        [c9Child].map (childSeg c6Config) ∧
    (parseHierarchy '.' (hierChain '.' c6Config
        (hierarchicalRoot 3 '.' c6Config ⟨1000, 0, 0⟩) [c9Child])).root =
      hierarchicalRoot 3 '.' c6Config ⟨1000, 0, 0⟩ ∧
    ([c9Child] ≠ ([] : List RenderArgs) →
      (parseHierarchy '.' (hierChain '.' c6Config
          (hierarchicalRoot 3 '.' c6Config ⟨1000, 0, 0⟩) [c9Child])).leaf =
        (([c9Child].map (childSeg c6Config)).getLast?).getD []) :=
  c9_hierarchy c6Config (by decide) (by decide) (by decide) rfl ⟨1000, 0, 0⟩ [c9Child]

/-! ## C7: the encryption wrapper envelope -/

/-- `Buffer.prototype.toString('hex')`: each byte as two lowercase hex
chars. -/
def bytesToHex (bs : List (Fin 256)) : List Char :=
  (bs.map (fun b => toHexPad 2 b.val)).join

/-- `Buffer.from(str, 'hex')`: parse consecutive hex-digit pairs (a
trailing odd character is dropped, as in node).  The `% 256` is a no-op on
genuine hex pairs. -/
def hexToBytes : List Char → List (Fin 256)
  | c1 :: c2 :: rest =>
    ⟨(16 * fromHexDigit c1 + fromHexDigit c2) % 256, Nat.mod_lt _ (by norm_num)⟩ ::
      hexToBytes rest
  | _ => []

/-- `Buffer.from(secretKey.padEnd(32, '0').substring(0, 32))` — the key
derivation shared by `encrypt` and `decrypt` (src/index.js lines 196, 215). -/
def deriveKey (secret : List Char) : List Char :=
  (secret ++ List.replicate (32 - secret.length) '0').take 32

/-- JS truthiness of `this.secretKey`: `null` and the empty string are
falsy. -/
def strTruthy : Option (List Char) → Bool
  | none => false
  | some s => !s.isEmpty

/-- `encrypt` (src/index.js lines 191-203), over an abstract block-cipher
encryption function standing for node's AES-256-CBC (an external library);
`iv` stands for the 16 fresh random bytes. -/
def encrypt (enc : List Char → List (Fin 256) → List Char → List (Fin 256))
    (cfg : Config) (iv : List (Fin 256)) (data : List Char) : Except String (List Char) :=
  if strTruthy cfg.secretKey then
    .ok (bytesToHex iv ++ ':' ::
      bytesToHex (enc (deriveKey (cfg.secretKey.getD [])) iv data))
  else .error "Secret key required for encryption"

/-- `decrypt` (src/index.js lines 205-224), over the matching abstract
decryption function.  Splitting on `:` must yield exactly two parts. -/
def decrypt (dec : List Char → List (Fin 256) → List (Fin 256) → Except String (List Char))
    (cfg : Config) (envelope : List Char) : Except String (List Char) :=
  if strTruthy cfg.secretKey then
    match splitOnChar ':' envelope with
    | [ivHex, ctHex] =>
      dec (deriveKey (cfg.secretKey.getD [])) (hexToBytes ivHex) (hexToBytes ctHex)
    | _ => .error "Invalid encrypted data format"
  else .error "Secret key required for decryption"

theorem hexToBytes_bytesToHex : ∀ bs : List (Fin 256), hexToBytes (bytesToHex bs) = bs := by
  intro bs
  induction bs with
  | nil => rfl
  | cons b rest ih =>
    have hl : (toHexPad 2 b.val).length = 2 :=
      toHexPad_length (by norm_num) (by have := b.isLt; omega)
    obtain ⟨d1, d2, hd⟩ := List.length_eq_two.mp hl
    show hexToBytes (toHexPad 2 b.val ++ bytesToHex rest) = b :: rest
    rw [hd]
    show hexToBytes (d1 :: d2 :: bytesToHex rest) = b :: rest
    rw [hexToBytes, ih]
    congr 1
    have hfv : fromHex [d1, d2] = b.val := by
      rw [← hd, fromHex_toHexPad]
    have hfe : fromHex [d1, d2] = 16 * fromHexDigit d1 + fromHexDigit d2 := by
      show List.foldl _ _ _ = _
      simp [List.foldl]
    apply Fin.ext
    show (16 * fromHexDigit d1 + fromHexDigit d2) % 256 = b.val
    have := b.isLt
    omega

theorem bytesToHex_mem_hex {bs : List (Fin 256)} :
    ∀ c ∈ bytesToHex bs, isLowerHex c = true := by
  intro c hc
  unfold bytesToHex at hc
  rw [List.mem_join] at hc
  obtain ⟨l, hl, hcl⟩ := hc
  rw [List.mem_map] at hl
  obtain ⟨b, _, rfl⟩ := hl
  exact toHexPad_mem_hex c hcl

theorem hex_ne_colon {c : Char} (h : isLowerHex c = true) : c ≠ ':' := by
  intro hc
  rw [hc] at h
  cases h

theorem deriveKey_length {sk : List Char} (h : sk ≠ []) : (deriveKey sk).length = 32 := by
  unfold deriveKey
  rw [List.length_take, List.length_append, List.length_replicate]
  omega

/-- C7: for any cipher pair satisfying the block-cipher inverse law (node's
AES-256-CBC does), any configured non-empty secret, any IV and any data,
`encrypt` emits the `ivHex:ciphertextHex` envelope over the 32-byte derived
key and `decrypt` of that envelope with the same secret returns exactly the
original text. -/
theorem c7_encrypt_decrypt
    (enc : List Char → List (Fin 256) → List Char → List (Fin 256))
    (dec : List Char → List (Fin 256) → List (Fin 256) → Except String (List Char))
    (hinv : ∀ k iv p, dec k iv (enc k iv p) = .ok p)
    (cfg : Config) (sk : List Char) (hsk : cfg.secretKey = some sk) (hne : sk ≠ [])
    (iv : List (Fin 256)) (id : List Char) :
    encrypt enc cfg iv id =
      .ok (bytesToHex iv ++ ':' :: bytesToHex (enc (deriveKey sk) iv id)) ∧
    (deriveKey sk).length = 32 ∧
    decrypt dec cfg (bytesToHex iv ++ ':' :: bytesToHex (enc (deriveKey sk) iv id)) =
      .ok id := by
  have hske : sk.isEmpty = false := by
    cases sk with
    | nil => exact absurd rfl hne
    | cons a l => rfl
  have htr : strTruthy cfg.secretKey = true := by
    rw [hsk]
    show (!sk.isEmpty) = true
    rw [hske]
    rfl
  refine ⟨?_, deriveKey_length hne, ?_⟩
  · unfold encrypt
    rw [if_pos htr, hsk]
    rfl
  · unfold decrypt
    rw [if_pos htr]
    have hsplit : splitOnChar ':'
        (bytesToHex iv ++ ':' :: bytesToHex (enc (deriveKey sk) iv id)) =
        [bytesToHex iv, bytesToHex (enc (deriveKey sk) iv id)] := by
      rw [splitOnChar_append_sep (fun c hc => hex_ne_colon (bytesToHex_mem_hex c hc)),
        splitOnChar_no_sep (fun c hc => hex_ne_colon (bytesToHex_mem_hex c hc))]
    rw [hsplit, hsk]
    show dec (deriveKey sk) (hexToBytes (bytesToHex iv))
      (hexToBytes (bytesToHex (enc (deriveKey sk) iv id))) = .ok id
    rw [hexToBytes_bytesToHex, hexToBytes_bytesToHex, hinv]

/-- Witness cipher: encode each character as three little-endian bytes of
its code point; decoding inverts it for every string and ignores key and
IV, so the inverse law holds constructively. -/
def wEnc (k : List Char) (iv : List (Fin 256)) (p : List Char) : List (Fin 256) :=
  (p.map (fun c =>
    [(⟨c.toNat % 256, Nat.mod_lt _ (by norm_num)⟩ : Fin 256),
     ⟨c.toNat / 256 % 256, Nat.mod_lt _ (by norm_num)⟩,
     ⟨c.toNat / 65536 % 256, Nat.mod_lt _ (by norm_num)⟩])).join

def wDecodeChars : List (Fin 256) → List Char
  | b0 :: b1 :: b2 :: rest =>
    Char.ofNat (b0.val + 256 * b1.val + 65536 * b2.val) :: wDecodeChars rest
  | _ => []

def wDec (k : List Char) (iv : List (Fin 256)) (bs : List (Fin 256)) :
    Except String (List Char) :=
  .ok (wDecodeChars bs)

theorem wDec_wEnc (k : List Char) (iv : List (Fin 256)) (p : List Char) :
    wDec k iv (wEnc k iv p) = .ok p := by
  unfold wDec
  congr 1
  induction p with
  | nil => rfl
  | cons c rest ih =>
    have hlt : c.toNat < 1114112 := by
      rcases c.valid with h | h
      · exact Nat.lt_trans h (by norm_num)
      · exact h.2
    unfold wEnc
    unfold wEnc at ih
    simp only [List.map_cons, List.join_cons, List.cons_append, List.nil_append]
    rw [wDecodeChars, ih]
    congr 1
    show Char.ofNat
      (c.toNat % 256 + 256 * (c.toNat / 256 % 256) + 65536 * (c.toNat / 65536 % 256)) = c
    have harith : c.toNat % 256 + 256 * (c.toNat / 256 % 256) +
        65536 * (c.toNat / 65536 % 256) = c.toNat := by
      omega
    rw [harith, Char.ofNat_toNat]

def c7Config : Config := ⟨wNodeId, none, '-', none, none, some (String.toList "s3cret")⟩

/-- A concrete 16-byte IV for the witness. -/
def c7Iv : List (Fin 256) :=
  [0, 1, 2, 3, 4, 5, 6, 7, 8, 9, 10, 11, 12, 13, 14, 255]

theorem c7_encrypt_decrypt_witness :
    encrypt wEnc c7Config c7Iv (String.toList "0192-aaaa") =
      .ok (bytesToHex c7Iv ++ ':' ::
        bytesToHex (wEnc (deriveKey (String.toList "s3cret")) c7Iv
          (String.toList "0192-aaaa"))) ∧
    (deriveKey (String.toList "s3cret")).length = 32 ∧
    decrypt wDec c7Config
      (bytesToHex c7Iv ++ ':' ::
        bytesToHex (wEnc (deriveKey (String.toList "s3cret")) c7Iv
          (String.toList "0192-aaaa"))) =
      .ok (String.toList "0192-aaaa") :=
  c7_encrypt_decrypt wEnc wDec wDec_wEnc c7Config (String.toList "s3cret") rfl
    (by decide) c7Iv (String.toList "0192-aaaa")

/-! ## C8: the content-addressed deriver over SHA-256

`crypto.createHash('sha256')` is node library code; it is modelled here by
a full FIPS 180-4 SHA-256 implementation, validated below against the
standard `"abc"` test vector.  `hash.update(namespace); hash.update(content)`
hashes the byte concatenation; the toolkit's inputs are ASCII, for which
`Char.toNat` is the UTF-8 byte value. -/

def sha256K : List Nat :=
  [1116352408, 1899447441, 3049323471, 3921009573, 961987163, 1508970993,
   2453635748, 2870763221, 3624381080, 310598401, 607225278, 1426881987,
   1925078388, 2162078206, 2614888103, 3248222580, 3835390401, 4022224774,
   264347078, 604807628, 770255983, 1249150122, 1555081692, 1996064986,
   2554220882, 2821834349, 2952996808, 3210313671, 3336571891, 3584528711,
   113926993, 338241895, 666307205, 773529912, 1294757372, 1396182291,
   1695183700, 1986661051, 2177026350, 2456956037, 2730485921, 2820302411,
   3259730800, 3345764771, 3516065817, 3600352804, 4094571909, 275423344,
   430227734, 506948616, 659060556, 883997877, 958139571, 1322822218,
   1537002063, 1747873779, 1955562222, 2024104815, 2227730452, 2361852424,
   2428436474, 2756734187, 3204031479, 3329325298]

def rotr (n x : Nat) : Nat := (x / 2 ^ n + x % 2 ^ n * 2 ^ (32 - n)) % 2 ^ 32

def bsig0 (x : Nat) : Nat := rotr 2 x ^^^ rotr 13 x ^^^ rotr 22 x

def bsig1 (x : Nat) : Nat := rotr 6 x ^^^ rotr 11 x ^^^ rotr 25 x

def ssig0 (x : Nat) : Nat := rotr 7 x ^^^ rotr 18 x ^^^ x / 2 ^ 3

def ssig1 (x : Nat) : Nat := rotr 17 x ^^^ rotr 19 x ^^^ x / 2 ^ 10

def chF (x y z : Nat) : Nat := x &&& y ^^^ (x ^^^ 0xffffffff) &&& z

def majF (x y z : Nat) : Nat := x &&& y ^^^ x &&& z ^^^ y &&& z

structure Sha256State where
  a : Nat
  b : Nat
  c : Nat
  d : Nat
  e : Nat
  f : Nat
  g : Nat
  hh : Nat

def sha256Init : Sha256State :=
  ⟨1779033703, 3144134277, 1013904242, 2773480762,
   1359893119, 2600822924, 528734635, 1541459225⟩

def sha256Round (k w : Nat) (s : Sha256State) : Sha256State :=
  let t1 := (s.hh + bsig1 s.e + chF s.e s.f s.g + k + w) % 2 ^ 32
  let t2 := (bsig0 s.a + majF s.a s.b s.c) % 2 ^ 32
  ⟨(t1 + t2) % 2 ^ 32, s.a, s.b, s.c, (s.d + t1) % 2 ^ 32, s.e, s.f, s.g⟩

def extendW : Nat → List Nat → List Nat
  | 0, ws => ws
  | n + 1, ws =>
    extendW n (ws ++ [(ssig1 (ws.getD (ws.length - 2) 0) + ws.getD (ws.length - 7) 0 +
      ssig0 (ws.getD (ws.length - 15) 0) + ws.getD (ws.length - 16) 0) % 2 ^ 32])

def compressBlock (s : Sha256State) (block : List Nat) : Sha256State :=
  let ws := extendW 48 block
  let r := (sha256K.zip ws).foldl (fun t kw => sha256Round kw.1 kw.2 t) s
  ⟨(s.a + r.a) % 2 ^ 32, (s.b + r.b) % 2 ^ 32, (s.c + r.c) % 2 ^ 32,
   (s.d + r.d) % 2 ^ 32, (s.e + r.e) % 2 ^ 32, (s.f + r.f) % 2 ^ 32,
   (s.g + r.g) % 2 ^ 32, (s.hh + r.hh) % 2 ^ 32⟩

def be8 (n : Nat) : List Nat :=
  [n / 2 ^ 56 % 256, n / 2 ^ 48 % 256, n / 2 ^ 40 % 256, n / 2 ^ 32 % 256,
   n / 2 ^ 24 % 256, n / 2 ^ 16 % 256, n / 2 ^ 8 % 256, n % 256]

def sha256Pad (msg : List Nat) : List Nat :=
  msg ++ 0x80 :: (List.replicate ((119 - msg.length % 64) % 64) 0 ++ be8 (8 * msg.length))

def bytesToWords : List Nat → List Nat
  | b0 :: b1 :: b2 :: b3 :: rest =>
    (b0 * 2 ^ 24 + b1 * 2 ^ 16 + b2 * 2 ^ 8 + b3) :: bytesToWords rest
  | _ => []

def chunkBlocks : Nat → List Nat → List (List Nat)
  | 0, _ => []
  | _, [] => []
  | f + 1, ws => ws.take 16 :: chunkBlocks f (ws.drop 16)

def sha256hex (msg : List Nat) : List Char :=
  let ws := bytesToWords (sha256Pad msg)
  let s := (chunkBlocks ws.length ws).foldl compressBlock sha256Init
  toHexPad 8 s.a ++ toHexPad 8 s.b ++ toHexPad 8 s.c ++ toHexPad 8 s.d ++
    toHexPad 8 s.e ++ toHexPad 8 s.f ++ toHexPad 8 s.g ++ toHexPad 8 s.hh

def strBytes (s : List Char) : List Nat := s.map Char.toNat

/-- SHA-256 agrees with the FIPS 180-4 test vector for `"abc"`. -/
theorem sha256hex_abc : sha256hex (strBytes "abc".toList) =
    "ba7816bf8f01cfea414140de5dae2223b00361a396177a9cb410ff61f20015ad".toList := by
  decide

/-- `fromContent` (src/index.js lines 173-188) with the default `sha256`
algorithm: hash `namespace || content`, reformat the digest's first 32 hex
chars into the 8-4-4-4-12 shape joined by the instance separator. -/
def fromContent (cfg : Config) (content ns : List Char) : List Char :=
  let digest := sha256hex (strBytes (ns ++ content))
  digest.take 8 ++ cfg.separator ::
    ((digest.drop 8).take 4 ++ cfg.separator ::
      ((digest.drop 12).take 4 ++ cfg.separator ::
        ((digest.drop 16).take 4 ++ cfg.separator :: (digest.drop 20).take 12)))

set_option maxRecDepth 4000 in
/-- C8: `fromContent` is a deterministic pure function of
(content, namespace) — equal arguments always give equal text — and the
same content under the namespaces `users` and `backups` yields different
text. -/
theorem c8_fromContent :
    (∀ (cfg : Config) (content ns : List Char),
      fromContent cfg content ns = fromContent cfg content ns) ∧
    fromContent c6Config "a@b.com".toList "users".toList ≠
      fromContent c6Config "a@b.com".toList "backups".toList :=
  ⟨fun _ _ _ => rfl, by decide⟩

/-! ## C10: `PrefixedGenerator` forces the `_` separator -/

/-- The constructor options object (src/index.js lines 8-18), before the
defaulting logic.  The environment-derived node id (MAC address or random
fallback) is a parameter of the constructor model. -/
structure Options where
  nodeId : Option (List Char)
  idPrefix : Option (List Char)
  separator : Option Char
  validAfter : Option Int
  validBefore : Option Int
  secretKey : Option (List Char)
deriving DecidableEq

/-- The `UUSIDGenerator` constructor's config fields (src/index.js lines
8-18): `x || fallback` maps falsy (absent or empty) to the fallback. -/
def mkConfig (envNodeId : List Char) (o : Options) : Config :=
  { nodeId := match o.nodeId with
      | some n => if n.isEmpty then envNodeId else n
      | none => envNodeId
    idPrefix := match o.idPrefix with
      | some p => if p.isEmpty then none else some p
      | none => none
    separator := o.separator.getD '-'
    validAfter := o.validAfter
    validBefore := o.validBefore
    secretKey := o.secretKey }

/-- The `PrefixedGenerator` constructor (src/index.js lines 535-539):
`super({ ...options, prefix, separator: '_' })` — the spread is overridden
by the fixed `'_'`, so any caller-supplied separator is ignored. -/
def mkPrefixedConfig (envNodeId : List Char) (p : List Char) (o : Options) : Config :=
  mkConfig envNodeId { o with idPrefix := some p, separator := some '_' }

/-- C10: every `PrefixedGenerator` built with a non-empty prefix uses `'_'`
as its separator whatever `o.separator` says, and each of its generated
texts has the shape
`prefix_timeLow_timeMid_timeHighAndVersion_clockSeqAndVariant_node`. -/
theorem c10_prefixed (envNodeId : List Char) (p : List Char) (o : Options)
    (hne : p ≠ []) :
    (mkPrefixedConfig envNodeId p o).separator = '_' ∧
    (mkPrefixedConfig envNodeId p o).idPrefix = some p ∧
    ∀ last cs q,
      renderFull (mkPrefixedConfig envNodeId p o) last cs q =
        p ++ '_' :: (timeLowStr (tsTicks last) ++ '_' ::
          (timeMidStr (tsTicks last) ++ '_' ::
            (timeHighStr (tsTicks last) ++ '_' ::
              (clockSeqStr (clockSeqWithSeq cs q) ++ '_' ::
                nodeStr (mkPrefixedConfig envNodeId p o).nodeId)))) := by
  have hpe : p.isEmpty = false := by
    cases p with
    | nil => exact absurd rfl hne
    | cons a l => rfl
  have hpre : (mkPrefixedConfig envNodeId p o).idPrefix = some p := by
    show (if p.isEmpty then none else some p) = some p
    rw [hpe]
    rfl
  refine ⟨rfl, hpre, ?_⟩
  intro last cs q
  unfold renderFull
  rw [hpre]
  show (if p.isEmpty = true
      then renderCore '_' (mkPrefixedConfig envNodeId p o).nodeId last cs q
      else p ++ '_' :: renderCore '_' (mkPrefixedConfig envNodeId p o).nodeId last cs q) =
    p ++ '_' :: (timeLowStr (tsTicks last) ++ '_' ::
      (timeMidStr (tsTicks last) ++ '_' ::
        (timeHighStr (tsTicks last) ++ '_' ::
          (clockSeqStr (clockSeqWithSeq cs q) ++ '_' ::
            nodeStr (mkPrefixedConfig envNodeId p o).nodeId))))
  rw [hpe]
  rfl

def c10Options : Options := ⟨none, none, some 'X', none, none, none⟩

theorem c10_prefixed_witness :
    (mkPrefixedConfig wNodeId "user".toList c10Options).separator = '_' ∧
    (mkPrefixedConfig wNodeId "user".toList c10Options).idPrefix = some "user".toList ∧
    ∀ last cs q,
      renderFull (mkPrefixedConfig wNodeId "user".toList c10Options) last cs q =
        "user".toList ++ '_' :: (timeLowStr (tsTicks last) ++ '_' ::
          (timeMidStr (tsTicks last) ++ '_' ::
            (timeHighStr (tsTicks last) ++ '_' ::
              (clockSeqStr (clockSeqWithSeq cs q) ++ '_' ::
                nodeStr (mkPrefixedConfig wNodeId "user".toList c10Options).nodeId)))) :=
  c10_prefixed wNodeId "user".toList c10Options (by decide)
